import Mathlib

/-!
A verification development for the transaction/booking consistency core of a
point-of-sale and venue-management backend (transaction engine, booking
engine, order-request state machine, inventory adjustment ledger).

The relational store is embedded shallowly: each table is an association
list from natural-number ids to row records, `UPDATE ... WHERE id = k` is a
pointwise map over the matching key, and `INSERT` appends a fresh-id row.
Monetary amounts (stored as decimal strings in the database and manipulated
through `parseFloat`) are modelled as rationals; integer stock counts are
modelled as `Int`.  Timestamp columns (`createdAt`, `updatedAt`,
`occupiedAt`, `returnedAt`), payment-method labels and free-text columns
that no property depends on are abstracted away.  A database transaction
(`db.transaction`) that throws is rolled back by the driver, so each
operation is a total function returning `Except`: an `error` result leaves
the store exactly as it was.
-/

namespace BBP

/-- Lookup of the first row with the given id in an association-list table. -/
def findk {α : Type} : List (Nat × α) → Nat → Option α
  | [], _ => none
  | (k', v) :: rest, k => if k' = k then some v else findk rest k

/-- `UPDATE ... SET ... WHERE id = k`: apply `f` to every row keyed `k`. -/
def updk {α : Type} : List (Nat × α) → Nat → (α → α) → List (Nat × α)
  | [], _, _ => []
  | (k', v) :: rest, k, f => (k', if k' = k then f v else v) :: updk rest k f

theorem findk_updk_self {α : Type} (m : List (Nat × α)) (k : Nat) (f : α → α) :
    findk (updk m k f) k = (findk m k).map f := by
  induction m with
  | nil => rfl
  | cons p rest ih =>
    obtain ⟨k', v⟩ := p
    by_cases h : k' = k
    · simp [findk, updk, h]
    · simp [findk, updk, h, ih]

theorem findk_updk_ne {α : Type} (m : List (Nat × α)) (k k' : Nat) (f : α → α)
    (h : k' ≠ k) : findk (updk m k f) k' = findk m k' := by
  induction m with
  | nil => rfl
  | cons p rest ih =>
    obtain ⟨k₀, v⟩ := p
    by_cases h1 : k₀ = k'
    · subst h1
      simp [findk, updk, h]
    · simp [findk, updk, h1, ih]

theorem findk_append {α : Type} (m l : List (Nat × α)) (k : Nat) :
    findk (m ++ l) k = ((findk m k).rec (findk l k) (fun v => some v) : Option α) := by
  induction m with
  | nil => rfl
  | cons p rest ih =>
    obtain ⟨k', v⟩ := p
    by_cases h : k' = k <;> simp [findk, h, ih]

theorem findk_append_of_some {α : Type} {m : List (Nat × α)} {k : Nat} {v : α}
    (l : List (Nat × α)) (h : findk m k = some v) : findk (m ++ l) k = some v := by
  rw [findk_append, h]

theorem findk_append_of_none {α : Type} {m : List (Nat × α)} {k : Nat}
    (l : List (Nat × α)) (h : findk m k = none) : findk (m ++ l) k = findk l k := by
  rw [findk_append, h]

/-- Decidable equality of results, for evaluating operations on sample
data inside proofs. -/
instance {e a : Type} [DecidableEq e] [DecidableEq a] :
    DecidableEq (Except e a) := fun x y =>
  match x, y with
  | .error u, .error v =>
    if h : u = v then .isTrue (by rw [h])
    else .isFalse (fun hc => h (by cases hc; rfl))
  | .ok u, .ok v =>
    if h : u = v then .isTrue (by rw [h])
    else .isFalse (fun hc => h (by cases hc; rfl))
  | .error _, .ok _ => .isFalse (fun hc => Except.noConfusion hc)
  | .ok _, .error _ => .isFalse (fun hc => Except.noConfusion hc)

/-! ## Enumerations (schema string enums, `src/db/schema.ts`) -/

inductive ProductType | SELL | RENT
  deriving DecidableEq

inductive TxType | POS | RENTAL | BOOKING
  deriving DecidableEq

inductive TxStatus | PENDING | PAID | CANCELLED | COMPLETED
  deriving DecidableEq

inductive TableStatus | EMPTY | OCCUPIED
  deriving DecidableEq

inductive ItemType | PRODUCT | MENU | BOOKING
  deriving DecidableEq

inductive SellStatus | ACTIVE | CANCELLED
  deriving DecidableEq

inductive RentStatus | ACTIVE | RETURNED | CANCELLED
  deriving DecidableEq

inductive BookingStatus | PENDING | CONFIRMED | CANCELLED | COMPLETED
  deriving DecidableEq

inductive PaymentStatus | UNPAID | PARTIAL | PAID
  deriving DecidableEq

inductive CourtStatus | ACTIVE | MAINTENANCE | INACTIVE
  deriving DecidableEq

inductive OrderStatus | PENDING | APPROVED | PREPARING | SERVED | REJECTED | CANCELLED
  deriving DecidableEq

inductive AdjType | ADD | REMOVE | CORRECTION
  deriving DecidableEq

/-! ## Row records -/

/-- A `products` row: `stock` is a non-nullable integer column. -/
structure Product where
  name : String
  price : Rat
  stock : Int
  type : ProductType
  isActive : Bool
  deriving DecidableEq

/-- A `menus` row: `stock` is nullable, `none` meaning unlimited/untracked. -/
structure Menu where
  name : String
  price : Rat
  stock : Option Int
  isActive : Bool
  deriving DecidableEq

/-- A `tables` row (café table). -/
structure DineTable where
  status : TableStatus
  currentCustomerName : Option String
  isActive : Bool
  deriving DecidableEq

/-- A `transaction_items` row (owned by its transaction). -/
structure TransactionItem where
  itemType : ItemType
  productId : Option Nat
  menuId : Option Nat
  quantity : Nat
  unitPrice : Rat
  subtotal : Rat
  notes : Option String
  deriving DecidableEq

/-- A `product_sell_records` row (owned by its transaction). -/
structure SellRecord where
  productId : Nat
  quantity : Nat
  unitPrice : Rat
  subtotal : Rat
  status : SellStatus
  deriving DecidableEq

/-- A `product_rent_records` row (owned by its transaction). -/
structure RentRecord where
  productId : Nat
  quantity : Nat
  unitPrice : Rat
  subtotal : Rat
  status : RentStatus
  deriving DecidableEq

/-- A `transactions` row.  Its items and sell/rent sub-records are created
together with it and only ever queried/updated through `transactionId`, so
they are embedded as fields. -/
structure Transaction where
  invoiceNumber : Nat
  type : TxType
  tableId : Option Nat
  customerName : Option String
  totalAmount : Rat
  paidAmount : Rat
  changeAmount : Rat
  status : TxStatus
  items : List TransactionItem
  sellRecords : List SellRecord
  rentRecords : List RentRecord
  deriving DecidableEq

/-- A `courts` row. -/
structure Court where
  name : String
  pricePerHour : Rat
  status : CourtStatus
  deriving DecidableEq

/-- A `bookings` row; times are epoch milliseconds. -/
structure Booking where
  courtId : Nat
  startTime : Int
  endTime : Int
  durationHours : Rat
  pricePerHour : Rat
  totalPrice : Rat
  paymentStatus : PaymentStatus
  bookingStatus : BookingStatus
  transactionId : Option Nat
  deriving DecidableEq

/-- An `order_request_items` row (menu reference plus client-supplied prices). -/
structure OrderItem where
  menuId : Nat
  quantity : Nat
  unitPrice : Rat
  subtotal : Rat
  notes : Option String
  deriving DecidableEq

/-- An `order_requests` row. -/
structure OrderRequest where
  tableId : Option Nat
  customerName : String
  totalAmount : Rat
  status : OrderStatus
  approvedBy : Option Nat
  rejectedReason : Option String
  items : List OrderItem
  transactionId : Option Nat
  deriving DecidableEq

/-- An `inventories` row. -/
structure Inventory where
  name : String
  quantity : Int
  deriving DecidableEq

/-- An `inventory_adjustments` row (append-only ledger). -/
structure Adjustment where
  inventoryId : Nat
  changeType : AdjType
  quantityBefore : Int
  quantityAfter : Int
  changeAmount : Int
  reason : String
  createdBy : Nat
  deriving DecidableEq

/-- The relational store.  `nextId` supplies fresh row ids for inserts. -/
structure DB where
  products : List (Nat × Product)
  menus : List (Nat × Menu)
  tables : List (Nat × DineTable)
  courts : List (Nat × Court)
  transactions : List (Nat × Transaction)
  bookings : List (Nat × Booking)
  orderRequests : List (Nat × OrderRequest)
  inventories : List (Nat × Inventory)
  adjustments : List Adjustment
  nextId : Nat
  deriving DecidableEq

/-- Typed domain errors corresponding to the controllers' thrown messages
and early error responses. -/
inductive DomainError
  | tableNotFound
  | tableNotActive
  | productNotFound (id : Nat)
  | productNotActive (name : String)
  | menuNotFound (id : Nat)
  | menuNotActive (name : String)
  | insufficientStock (name : String) (available : Int)
  | insufficientPayment
  | transactionNotFound
  | alreadyCancelled
  | onlyRentalCompletable
  | alreadyCompleted
  | cannotCompleteCancelled
  | alreadyPaid
  | cannotPayCancelled
  | insufficientPaidAmount
  | courtNotFound
  | courtNotAvailable
  | timeSlotBooked
  | bookingNotFound
  | bookingAlreadyCancelled
  | orderNotFound
  | invalidTransition (current target : OrderStatus)
  | inventoryNotFound
  | removeExceedsStock
  | negativeQuantity
  deriving DecidableEq

/-! ## Transaction engine (`src/controllers/transaction.controller.ts`) -/

/-- One element of the `items` array accepted by `createTransaction`
(validated by `createTransactionSchema`: quantity is a positive integer). -/
structure ItemInput where
  itemType : ItemType
  id : Nat
  quantity : Nat
  notes : Option String
  deriving DecidableEq

/-- Validated `createTransaction` request body. -/
structure CreateTxInput where
  type : TxType
  tableId : Option Nat
  customerName : Option String
  paidAmount : Rat
  items : List ItemInput
  deriving DecidableEq

/-- Accumulator of the per-item processing loop in `createTransaction`:
the catalog tables (read-your-writes inside the database transaction), the
running total, the processed transaction items and the pending sell/rent
records collected for later insertion. -/
structure ProcState where
  products : List (Nat × Product)
  menus : List (Nat × Menu)
  totalAmount : Rat
  processedItems : List TransactionItem
  sellItems : List SellRecord
  rentItems : List RentRecord
  deriving DecidableEq

/-- Loop body of `createTransaction`'s `for (const item of items)`:
fetch the catalog record, reject missing/inactive records, apply the stock
rule (check and decrement for a SELL product, any product in a RENTAL
transaction, and any menu with non-null stock), accumulate the subtotal
and record the processed item plus its sell/rent record. An item whose
`itemType` is neither PRODUCT nor MENU is skipped by the `if`/`else if`. -/
def processItem (ty : TxType) (st : ProcState) (item : ItemInput) :
    Except DomainError ProcState :=
  match item.itemType with
  | .PRODUCT =>
    match findk st.products item.id with
    | none => .error (.productNotFound item.id)
    | some product =>
      if product.isActive = false then .error (.productNotActive product.name)
      else if product.type = .SELL ∨ ty = .RENTAL then
        if product.stock < (item.quantity : Int) then
          .error (.insufficientStock product.name product.stock)
        else
          .ok (productStep st item product
            (updk st.products item.id
              (fun p => { p with stock := product.stock - (item.quantity : Int) })))
      else
        .ok (productStep st item product st.products)
  | .MENU =>
    match findk st.menus item.id with
    | none => .error (.menuNotFound item.id)
    | some menu =>
      if menu.isActive = false then .error (.menuNotActive menu.name)
      else
        match menu.stock with
        | some n =>
          if n < (item.quantity : Int) then
            .error (.insufficientStock menu.name n)
          else
            .ok (menuStep st item menu
              (updk st.menus item.id
                (fun m => { m with stock := some (n - (item.quantity : Int)) })))
        | none => .ok (menuStep st item menu st.menus)
  | .BOOKING => .ok st
where
  /-- Bookkeeping shared by both product branches: subtotal accumulation,
  processed item, and the pending sell or rent record by catalog type. -/
  productStep (st : ProcState) (item : ItemInput) (product : Product)
      (products' : List (Nat × Product)) : ProcState :=
    let unitPrice := product.price
    let subtotal := unitPrice * (item.quantity : Rat)
    { st with
      products := products'
      totalAmount := st.totalAmount + subtotal
      processedItems := st.processedItems ++
        [{ itemType := .PRODUCT, productId := some item.id, menuId := none,
           quantity := item.quantity, unitPrice := unitPrice,
           subtotal := subtotal, notes := item.notes }]
      sellItems :=
        if product.type = .SELL then
          st.sellItems ++
            [{ productId := item.id, quantity := item.quantity,
               unitPrice := unitPrice, subtotal := subtotal, status := .ACTIVE }]
        else st.sellItems
      rentItems :=
        if product.type = .RENT then
          st.rentItems ++
            [{ productId := item.id, quantity := item.quantity,
               unitPrice := unitPrice, subtotal := subtotal, status := .ACTIVE }]
        else st.rentItems }
  /-- Bookkeeping of the menu branch. -/
  menuStep (st : ProcState) (item : ItemInput) (menu : Menu)
      (menus' : List (Nat × Menu)) : ProcState :=
    let unitPrice := menu.price
    let subtotal := unitPrice * (item.quantity : Rat)
    { st with
      menus := menus'
      totalAmount := st.totalAmount + subtotal
      processedItems := st.processedItems ++
        [{ itemType := .MENU, productId := none, menuId := some item.id,
           quantity := item.quantity, unitPrice := unitPrice,
           subtotal := subtotal, notes := item.notes }] }

/-- The whole item loop, threading the accumulator left to right. -/
def processItems (ty : TxType) (st : ProcState) :
    List ItemInput → Except DomainError ProcState
  | [] => .ok st
  | item :: rest =>
    match processItem ty st item with
    | .error e => .error e
    | .ok st' => processItems ty st' rest

/-- Initial accumulator for a given store. -/
def initProc (s : DB) : ProcState :=
  { products := s.products, menus := s.menus, totalAmount := 0,
    processedItems := [], sellItems := [], rentItems := [] }

/-- `POST /transactions` (`createTransaction`).  The table is validated
before the atomic unit; every mutation happens inside it.  On success the
new transaction row (status PAID, invoice number = count of existing
transactions + 1) with its items and sell/rent records is inserted, stock
is decremented, and a linked table is set to OCCUPIED.  Returns the new
transaction's id. -/
def createTransaction (s : DB) (inp : CreateTxInput) :
    Except DomainError (DB × Nat) :=
  match
    (match inp.tableId with
     | none => Except.ok ()
     | some tid =>
       match findk s.tables tid with
       | none => Except.error DomainError.tableNotFound
       | some t =>
         if t.isActive = false then Except.error DomainError.tableNotActive
         else Except.ok ()) with
  | .error e => .error e
  | .ok _ =>
    match processItems inp.type (initProc s) inp.items with
    | .error e => .error e
    | .ok st =>
      let changeAmount := inp.paidAmount - st.totalAmount
      if changeAmount < 0 then .error .insufficientPayment
      else
        let txId := s.nextId
        let txn : Transaction :=
          { invoiceNumber := s.transactions.length + 1
            type := inp.type
            tableId := inp.tableId
            customerName := inp.customerName
            totalAmount := st.totalAmount
            paidAmount := inp.paidAmount
            changeAmount := changeAmount
            status := .PAID
            items := st.processedItems
            sellRecords := st.sellItems
            rentRecords := st.rentItems }
        .ok ({ s with
                products := st.products
                menus := st.menus
                transactions := s.transactions ++ [(txId, txn)]
                tables :=
                  match inp.tableId with
                  | some tid =>
                    updk s.tables tid (fun t =>
                      { t with status := .OCCUPIED,
                               currentCustomerName := inp.customerName })
                  | none => s.tables
                nextId := txId + 1 }, txId)

/-- Stock restoration step of `cancelTransaction`'s item loop: a PRODUCT
item restores the product's stock by its quantity; a MENU item restores
only if the menu currently tracks stock; missing rows are skipped. -/
def restoreStep (ps : List (Nat × Product)) (ms : List (Nat × Menu))
    (item : TransactionItem) : List (Nat × Product) × List (Nat × Menu) :=
  match item.itemType with
  | .PRODUCT =>
    match item.productId with
    | some pid =>
      match findk ps pid with
      | some product =>
        (updk ps pid (fun p =>
          { p with stock := product.stock + (item.quantity : Int) }), ms)
      | none => (ps, ms)
    | none => (ps, ms)
  | .MENU =>
    match item.menuId with
    | some mid =>
      match findk ms mid with
      | some menu =>
        match menu.stock with
        | some n =>
          (ps, updk ms mid (fun m =>
            { m with stock := some (n + (item.quantity : Int)) }))
        | none => (ps, ms)
      | none => (ps, ms)
    | none => (ps, ms)
  | .BOOKING => (ps, ms)

/-- `PATCH /transactions/:id/cancel` (`cancelTransaction`): rejected only
when already CANCELLED; otherwise restores stock for every item, sets all
sell/rent records to CANCELLED, sets the transaction CANCELLED, and clears
a linked table back to EMPTY. -/
def cancelTransaction (s : DB) (id : Nat) : Except DomainError DB :=
  match findk s.transactions id with
  | none => .error .transactionNotFound
  | some txn =>
    if txn.status = .CANCELLED then .error .alreadyCancelled
    else
      let pm := txn.items.foldl (fun pm item => restoreStep pm.1 pm.2 item)
        (s.products, s.menus)
      .ok { s with
             products := pm.1
             menus := pm.2
             transactions := updk s.transactions id (fun t =>
               { t with status := .CANCELLED,
                        sellRecords := t.sellRecords.map
                          (fun r => { r with status := .CANCELLED }),
                        rentRecords := t.rentRecords.map
                          (fun r => { r with status := .CANCELLED }) })
             tables :=
               match txn.tableId with
               | some tid =>
                 updk s.tables tid (fun t =>
                   { t with status := .EMPTY, currentCustomerName := none })
               | none => s.tables }

/-- `PATCH /transactions/:id/complete` (`completeTransaction`): RENTAL
only, not from COMPLETED or CANCELLED.  Restores stock only for PRODUCT
items whose catalog product is of type RENT, sets rent records RETURNED,
the transaction COMPLETED and the linked table EMPTY. -/
def completeTransaction (s : DB) (id : Nat) : Except DomainError DB :=
  match findk s.transactions id with
  | none => .error .transactionNotFound
  | some txn =>
    if txn.type ≠ .RENTAL then .error .onlyRentalCompletable
    else if txn.status = .COMPLETED then .error .alreadyCompleted
    else if txn.status = .CANCELLED then .error .cannotCompleteCancelled
    else
      let ps := txn.items.foldl (fun ps item =>
        match item.itemType, item.productId with
        | .PRODUCT, some pid =>
          match findk ps pid with
          | some product =>
            if product.type = .RENT then
              updk ps pid (fun p =>
                { p with stock := product.stock + (item.quantity : Int) })
            else ps
          | none => ps
        | _, _ => ps) s.products
      .ok { s with
             products := ps
             transactions := updk s.transactions id (fun t =>
               { t with status := .COMPLETED,
                        rentRecords := t.rentRecords.map
                          (fun r => { r with status := .RETURNED }) })
             tables :=
               match txn.tableId with
               | some tid =>
                 updk s.tables tid (fun t =>
                   { t with status := .EMPTY, currentCustomerName := none })
               | none => s.tables }

/-- `PATCH /transactions/:id/pay` (`payTransaction`): not from PAID or
CANCELLED; recomputes the change and fails when it is negative. -/
def payTransaction (s : DB) (id : Nat) (paidAmount : Rat) :
    Except DomainError DB :=
  match findk s.transactions id with
  | none => .error .transactionNotFound
  | some txn =>
    if txn.status = .PAID then .error .alreadyPaid
    else if txn.status = .CANCELLED then .error .cannotPayCancelled
    else
      let changeAmount := paidAmount - txn.totalAmount
      if changeAmount < 0 then .error .insufficientPaidAmount
      else
        .ok { s with
               transactions := updk s.transactions id (fun t =>
                 { t with status := .PAID, paidAmount := paidAmount,
                          changeAmount := changeAmount }) }

/-- Observable store after a `createTransaction` request: the committed
state on success, the rolled-back (unchanged) store on error. -/
def afterCreateTx (s : DB) (inp : CreateTxInput) : DB :=
  match createTransaction s inp with
  | .ok (s', _) => s'
  | .error _ => s

/-! ## Booking engine (`src/controllers/booking.controller.ts`) -/

/-- Validated `createBooking` request body.  The validator guarantees
`endTime > startTime` and a duration of at least one hour, defaults
`paymentStatus` to UNPAID and `paidAmount` to 0; times are epoch
milliseconds. -/
structure BookingInput where
  courtId : Nat
  customerName : String
  startTime : Int
  endTime : Int
  paymentStatus : PaymentStatus
  paidAmount : Rat
  deriving DecidableEq

/-- The overlap test of `createBooking`'s availability query: same court,
not CANCELLED, `existing.startTime < newEnd AND existing.endTime >
newStart`. -/
def overlapsNew (b : Booking) (courtId : Nat) (newStart newEnd : Int) : Bool :=
  b.courtId = courtId ∧ b.bookingStatus ≠ .CANCELLED ∧
    b.startTime < newEnd ∧ b.endTime > newStart

/-- `POST /bookings` (`createBooking`): court must exist and be ACTIVE; a
conflicting reservation rejects with 409; otherwise the backing BOOKING
transaction (with one descriptive line item) and the booking row are
created atomically.  Returns (new booking id, new transaction id). -/
def createBooking (s : DB) (inp : BookingInput) :
    Except DomainError (DB × Nat × Nat) :=
  match findk s.courts inp.courtId with
  | none => .error .courtNotFound
  | some court =>
    if court.status ≠ .ACTIVE then .error .courtNotAvailable
    else if s.bookings.any (fun p =>
        overlapsNew p.2 inp.courtId inp.startTime inp.endTime) then
      .error .timeSlotBooked
    else
      let durationHours : Rat := ((inp.endTime - inp.startTime : Int) : Rat) / 3600000
      let pricePerHour := court.pricePerHour
      let totalPrice := durationHours * pricePerHour
      let bookingStatus : BookingStatus :=
        if inp.paidAmount ≥ totalPrice then .CONFIRMED else .PENDING
      let paymentStatus : PaymentStatus :=
        if inp.paidAmount ≥ totalPrice then .PAID
        else if inp.paidAmount > 0 then .PARTIAL
        else inp.paymentStatus
      let txId := s.nextId
      let bkId := s.nextId + 1
      let txn : Transaction :=
        { invoiceNumber := s.transactions.length + 1
          type := .BOOKING
          tableId := none
          customerName := some inp.customerName
          totalAmount := totalPrice
          paidAmount := inp.paidAmount
          changeAmount := max 0 (inp.paidAmount - totalPrice)
          status := if inp.paidAmount ≥ totalPrice then .PAID else .PENDING
          items :=
            [{ itemType := .BOOKING, productId := none, menuId := none,
               quantity := 1, unitPrice := totalPrice, subtotal := totalPrice,
               notes := some ("Court Booking: " ++ court.name) }]
          sellRecords := []
          rentRecords := [] }
      let bk : Booking :=
        { courtId := inp.courtId
          startTime := inp.startTime
          endTime := inp.endTime
          durationHours := durationHours
          pricePerHour := pricePerHour
          totalPrice := totalPrice
          paymentStatus := paymentStatus
          bookingStatus := bookingStatus
          transactionId := some txId }
      .ok ({ s with
              transactions := s.transactions ++ [(txId, txn)]
              bookings := s.bookings ++ [(bkId, bk)]
              nextId := s.nextId + 2 }, bkId, txId)

/-- `PATCH /bookings/:id/cancel` (`cancelBooking`): rejected only when
already CANCELLED; cancels the booking and, when linked, its backing
transaction. -/
def cancelBooking (s : DB) (id : Nat) : Except DomainError DB :=
  match findk s.bookings id with
  | none => .error .bookingNotFound
  | some bk =>
    if bk.bookingStatus = .CANCELLED then .error .bookingAlreadyCancelled
    else
      .ok { s with
             bookings := updk s.bookings id (fun b =>
               { b with bookingStatus := .CANCELLED })
             transactions :=
               match bk.transactionId with
               | some tid =>
                 updk s.transactions tid (fun t =>
                   { t with status := .CANCELLED })
               | none => s.transactions }

/-- `PATCH /bookings/:id/complete` (`completeBooking`): sets the booking
COMPLETED unconditionally — the current status is never inspected. -/
def completeBooking (s : DB) (id : Nat) : Except DomainError DB :=
  match findk s.bookings id with
  | none => .error .bookingNotFound
  | some _ =>
    .ok { s with
           bookings := updk s.bookings id (fun b =>
             { b with bookingStatus := .COMPLETED }) }

/-! ## Order-request workflow (`updateOrderRequestStatus`) -/

/-- The controller's `validTransitions` table. -/
def allowedNext : OrderStatus → List OrderStatus
  | .PENDING => [.APPROVED, .REJECTED, .CANCELLED]
  | .APPROVED => [.PREPARING, .CANCELLED]
  | .PREPARING => [.SERVED, .CANCELLED]
  | .SERVED => []
  | .REJECTED => []
  | .CANCELLED => []

/-- The SERVED branch's loop over the order's items: if the referenced menu
exists and tracks stock, verify `stock ≥ quantity` (failing the whole
transition otherwise) and decrement it; missing or untracked menus are
skipped.  Every order item yields one MENU transaction item carrying the
order item's client-supplied unit price and subtotal. -/
def serveItems (ms : List (Nat × Menu)) :
    List OrderItem → Except DomainError (List (Nat × Menu) × List TransactionItem)
  | [] => .ok (ms, [])
  | item :: rest =>
    match
      (match findk ms item.menuId with
       | some menu =>
         match menu.stock with
         | some n =>
           if n < (item.quantity : Int) then
             Except.error (DomainError.insufficientStock menu.name n)
           else
             Except.ok (updk ms item.menuId (fun m =>
               { m with stock := some (n - (item.quantity : Int)) }))
         | none => Except.ok ms
       | none => Except.ok ms) with
    | .error e => .error e
    | .ok ms' =>
      match serveItems ms' rest with
      | .error e => .error e
      | .ok (ms'', titems) =>
        .ok (ms'', { itemType := ItemType.MENU, productId := none,
                     menuId := some item.menuId, quantity := item.quantity,
                     unitPrice := item.unitPrice, subtotal := item.subtotal,
                     notes := item.notes } :: titems)

/-- `PATCH /order-requests/:id/status` (`updateOrderRequestStatus`): the
transition table guards every change; APPROVED stamps the approver;
REJECTED stores the reason; SERVED atomically decrements tracked menu
stock, creates a POS transaction (status PENDING, paidAmount 0) carrying
one item per order item, and links the order to it.  Returns the id of the
transaction created by a SERVED transition, if any. -/
def updateOrderRequestStatus (s : DB) (id : Nat) (status : OrderStatus)
    (rejectedReason : Option String) (userId : Nat) :
    Except DomainError (DB × Option Nat) :=
  match findk s.orderRequests id with
  | none => .error .orderNotFound
  | some existing =>
    if (allowedNext existing.status).contains status = false then
      .error (.invalidTransition existing.status status)
    else if status = .SERVED then
      match serveItems s.menus existing.items with
      | .error e => .error e
      | .ok (menus', titems) =>
        let txId := s.nextId
        let txn : Transaction :=
          { invoiceNumber := s.transactions.length + 1
            type := .POS
            tableId := existing.tableId
            customerName := some existing.customerName
            totalAmount := existing.totalAmount
            paidAmount := 0
            changeAmount := 0
            status := .PENDING
            items := titems
            sellRecords := []
            rentRecords := [] }
        .ok ({ s with
                menus := menus'
                transactions := s.transactions ++ [(txId, txn)]
                orderRequests := updk s.orderRequests id (fun o =>
                  { o with status := status, transactionId := some txId })
                nextId := txId + 1 }, some txId)
    else
      .ok ({ s with
              orderRequests := updk s.orderRequests id (fun o =>
                if status = .APPROVED then
                  { o with status := status, approvedBy := some userId }
                else if status = .REJECTED then
                  { o with status := status, rejectedReason := rejectedReason }
                else { o with status := status }) }, none)

/-- Observable store after an `updateOrderRequestStatus` request. -/
def afterUpdateStatus (s : DB) (id : Nat) (status : OrderStatus)
    (rejectedReason : Option String) (userId : Nat) : DB :=
  match updateOrderRequestStatus s id status rejectedReason userId with
  | .ok (s', _) => s'
  | .error _ => s

/-! ## Inventory adjustment ledger (`adjustInventoryStock`) -/

/-- `POST /inventories/:id/adjust` (`adjustInventoryStock`): ADD adds,
REMOVE subtracts (409 when the result would be negative), CORRECTION sets
the quantity to `amount` directly (409 when negative); on success the
adjustment row and the new quantity are persisted atomically. -/
def adjustStock (s : DB) (id : Nat) (changeType : AdjType) (amount : Int)
    (reason : String) (userId : Nat) : Except DomainError DB :=
  match findk s.inventories id with
  | none => .error .inventoryNotFound
  | some inv =>
    let quantityBefore := inv.quantity
    match
      (match changeType with
       | .ADD => Except.ok (quantityBefore + amount)
       | .REMOVE =>
         if quantityBefore - amount < 0 then
           Except.error DomainError.removeExceedsStock
         else Except.ok (quantityBefore - amount)
       | .CORRECTION =>
         if amount < 0 then Except.error DomainError.negativeQuantity
         else Except.ok amount) with
    | .error e => .error e
    | .ok quantityAfter =>
      .ok { s with
             adjustments := s.adjustments ++
               [{ inventoryId := id, changeType := changeType,
                  quantityBefore := quantityBefore,
                  quantityAfter := quantityAfter,
                  changeAmount := quantityAfter - quantityBefore,
                  reason := reason, createdBy := userId }]
             inventories := updk s.inventories id (fun i =>
               { i with quantity := quantityAfter }) }

/-- Observable store after an `adjustStock` request. -/
def afterAdjustStock (s : DB) (id : Nat) (changeType : AdjType) (amount : Int)
    (reason : String) (userId : Nat) : DB :=
  match adjustStock s id changeType amount reason userId with
  | .ok s' => s'
  | .error _ => s

/-! ## Specification vocabulary -/

/-- The (itemType, id) key of a request item; two items with the same pair
address the same catalog row. -/
def pairOf (i : ItemInput) : ItemType × Nat := (i.itemType, i.id)

/-- Total quantity the request items charge against product `k`. -/
def prodQty (k : Nat) : List ItemInput → Int
  | [] => 0
  | i :: rest =>
    (if i.itemType = .PRODUCT ∧ i.id = k then (i.quantity : Int) else 0) +
      prodQty k rest

/-- Total quantity the request items charge against menu `k`. -/
def menuQty (k : Nat) : List ItemInput → Int
  | [] => 0
  | i :: rest =>
    (if i.itemType = .MENU ∧ i.id = k then (i.quantity : Int) else 0) +
      menuQty k rest

/-- Total quantity a transaction's items hold of product `k`. -/
def prodQtyT (k : Nat) : List TransactionItem → Int
  | [] => 0
  | it :: rest =>
    (if it.itemType = .PRODUCT ∧ it.productId = some k then (it.quantity : Int) else 0) +
      prodQtyT k rest

/-- Total quantity a transaction's items hold of menu `k`. -/
def menuQtyT (k : Nat) : List TransactionItem → Int
  | [] => 0
  | it :: rest =>
    (if it.itemType = .MENU ∧ it.menuId = some k then (it.quantity : Int) else 0) +
      menuQtyT k rest

/-- Total quantity an order request's items charge against menu `k`. -/
def menuQtyO (k : Nat) : List OrderItem → Int
  | [] => 0
  | it :: rest =>
    (if it.menuId = k then (it.quantity : Int) else 0) + menuQtyO k rest

/-- The net stock effect of `createTransaction`'s item loop on product `k`:
the full charged quantity when the product is stock-checked (SELL type, or
any product in a RENTAL transaction), nothing otherwise. -/
def prodDelta (ty : TxType) (items : List ItemInput) (k : Nat) (p : Product) : Int :=
  if p.type = .SELL ∨ ty = .RENTAL then prodQty k items else 0

/-- Stock update applied to a tracked menu record; untracked menus are
never touched. -/
def menuShift (d : Int) (m : Menu) : Menu :=
  match m.stock with
  | none => m
  | some n => { m with stock := some (n + d) }

/-- Stock update applied to a product record. -/
def prodShift (d : Int) (p : Product) : Product :=
  { p with stock := p.stock + d }

/-- Sum of the subtotals of a list of transaction items. -/
def sumSub : List TransactionItem → Rat
  | [] => 0
  | it :: rest => it.subtotal + sumSub rest

/-- Per-line-item pricing facts promised by the spec: the subtotal is the
unit price times the quantity, and the unit price was copied from the
referenced catalog record. -/
def itemSpec (ps : List (Nat × Product)) (ms : List (Nat × Menu))
    (it : TransactionItem) : Prop :=
  it.subtotal = it.unitPrice * (it.quantity : Rat) ∧
  (it.itemType = .PRODUCT → ∃ pid p, it.productId = some pid ∧
    findk ps pid = some p ∧ it.unitPrice = p.price) ∧
  (it.itemType = .MENU → ∃ mid m, it.menuId = some mid ∧
    findk ms mid = some m ∧ it.unitPrice = m.price)

/-- The referenced catalog record exists and is active. -/
def foundActive (ps : List (Nat × Product)) (ms : List (Nat × Menu))
    (i : ItemInput) : Prop :=
  (i.itemType = .PRODUCT → ∃ p, findk ps i.id = some p ∧ p.isActive = true) ∧
  (i.itemType = .MENU → ∃ m, findk ms i.id = some m ∧ m.isActive = true)

/-- The stock rule holds for the item against the given catalog tables. -/
def stockOkAt (ps : List (Nat × Product)) (ms : List (Nat × Menu))
    (ty : TxType) (i : ItemInput) : Prop :=
  (i.itemType = .PRODUCT → ∀ p, findk ps i.id = some p →
    (p.type = .SELL ∨ ty = .RENTAL) → (i.quantity : Int) ≤ p.stock) ∧
  (i.itemType = .MENU → ∀ m n, findk ms i.id = some m → m.stock = some n →
    (i.quantity : Int) ≤ n)

/-- The item violates the stock rule against the given catalog tables. -/
def underAt (ps : List (Nat × Product)) (ms : List (Nat × Menu))
    (ty : TxType) (i : ItemInput) : Prop :=
  (i.itemType = .PRODUCT ∧ ∃ p, findk ps i.id = some p ∧
    (p.type = .SELL ∨ ty = .RENTAL) ∧ p.stock < (i.quantity : Int)) ∨
  (i.itemType = .MENU ∧ ∃ m n, findk ms i.id = some m ∧
    m.stock = some n ∧ n < (i.quantity : Int))

/-- Table pre-check of `createTransaction`: the request either names no
table or an existing active one. -/
def tableOk (s : DB) (inp : CreateTxInput) : Prop :=
  match inp.tableId with
  | none => True
  | some tid => ∃ t, findk s.tables tid = some t ∧ t.isActive = true

/-- The transaction item materialized from an order-request item by the
SERVED transition. -/
def mkTItem (it : OrderItem) : TransactionItem :=
  { itemType := .MENU, productId := none, menuId := some it.menuId,
    quantity := it.quantity, unitPrice := it.unitPrice,
    subtotal := it.subtotal, notes := it.notes }

/-- The legal order-request transitions, as the spec's table of pairs
(current, next). -/
def legalPairs : List (OrderStatus × OrderStatus) :=
  [(.PENDING, .APPROVED), (.PENDING, .REJECTED), (.PENDING, .CANCELLED),
   (.APPROVED, .PREPARING), (.APPROVED, .CANCELLED),
   (.PREPARING, .SERVED), (.PREPARING, .CANCELLED)]

/-- Observable store after a `cancelTransaction` request. -/
def afterCancelTx (s : DB) (id : Nat) : DB :=
  match cancelTransaction s id with
  | .ok s' => s'
  | .error _ => s

/-- Observable store after a `payTransaction` request. -/
def afterPayTx (s : DB) (id : Nat) (paidAmount : Rat) : DB :=
  match payTransaction s id paidAmount with
  | .ok s' => s'
  | .error _ => s

/-- Observable store after a `completeTransaction` request. -/
def afterCompleteTx (s : DB) (id : Nat) : DB :=
  match completeTransaction s id with
  | .ok s' => s'
  | .error _ => s

/-- Observable store after a `createBooking` request. -/
def afterCreateBk (s : DB) (inp : BookingInput) : DB :=
  match createBooking s inp with
  | .ok (s', _, _) => s'
  | .error _ => s

/-- Observable store after a `cancelBooking` request. -/
def afterCancelBk (s : DB) (id : Nat) : DB :=
  match cancelBooking s id with
  | .ok s' => s'
  | .error _ => s

/-- Observable store after a `completeBooking` request. -/
def afterCompleteBk (s : DB) (id : Nat) : DB :=
  match completeBooking s id with
  | .ok s' => s'
  | .error _ => s

/-- No two distinct rows of a bookings table on the same court, neither
CANCELLED, overlap as half-open intervals. -/
def NoOverlap (bs : List (Nat × Booking)) : Prop :=
  bs.Pairwise (fun x y => x.2.courtId = y.2.courtId →
    x.2.bookingStatus ≠ .CANCELLED → y.2.bookingStatus ≠ .CANCELLED →
    ¬(x.2.startTime < y.2.endTime ∧ x.2.endTime > y.2.startTime))

/-! ## Concrete sample data -/

/-- A SELL-type product with stock 5. -/
def pBall : Product :=
  { name := "Ball", price := 10, stock := 5, type := .SELL, isActive := true }

/-- A RENT-type product with stock 5. -/
def pRacket : Product :=
  { name := "Racket", price := 20, stock := 5, type := .RENT, isActive := true }

/-- A stock-tracked menu with stock 4. -/
def mTea : Menu := { name := "Tea", price := 3, stock := some 4, isActive := true }

/-- An untracked (null-stock) menu. -/
def mCoffee : Menu := { name := "Coffee", price := 5, stock := none, isActive := true }

/-- An ACTIVE court at 100 per hour. -/
def exCourt : Court := { name := "Court A", pricePerHour := 100, status := .ACTIVE }

/-- An order request in PREPARING with one tracked-menu item. -/
def exOrder : OrderRequest :=
  { tableId := none, customerName := "Guest", totalAmount := 6,
    status := .PREPARING, approvedBy := none, rejectedReason := none,
    items := [{ menuId := 5, quantity := 2, unitPrice := 3, subtotal := 6,
                notes := none }],
    transactionId := none }

/-- A served order request (terminal state), for transition tests. -/
def exOrderServed : OrderRequest := { exOrder with status := .SERVED }

/-- An inventory row with quantity 10. -/
def exInv : Inventory := { name := "Net", quantity := 10 }

/-- The sample store. -/
def exDB : DB :=
  { products := [(1, pBall), (2, pRacket)]
    menus := [(5, mTea), (6, mCoffee)]
    tables := []
    courts := [(9, exCourt)]
    transactions := []
    bookings := []
    orderRequests := [(7, exOrder), (8, exOrderServed)]
    inventories := [(3, exInv)]
    adjustments := []
    nextId := 100 }

/-- POS sale: 2 Balls at 10, paid 50. -/
def posInput : CreateTxInput :=
  { type := .POS, tableId := none, customerName := some "C", paidAmount := 50,
    items := [{ itemType := .PRODUCT, id := 1, quantity := 2, notes := none }] }

/-- Rental: 2 Rackets at 20, paid 100. -/
def rentalInput : CreateTxInput :=
  { type := .RENTAL, tableId := none, customerName := some "C", paidAmount := 100,
    items := [{ itemType := .PRODUCT, id := 2, quantity := 2, notes := none }] }

/-- POS sale of a RENT-type product (reachable through the API). -/
def posRentInput : CreateTxInput :=
  { type := .POS, tableId := none, customerName := some "C", paidAmount := 100,
    items := [{ itemType := .PRODUCT, id := 2, quantity := 2, notes := none }] }

/-- POS sale paid 1 against a 20 total. -/
def lowPayInput : CreateTxInput :=
  { type := .POS, tableId := none, customerName := none, paidAmount := 1,
    items := [{ itemType := .PRODUCT, id := 1, quantity := 2, notes := none }] }

/-- POS sale of 9 Balls against stock 5. -/
def underStockInput : CreateTxInput :=
  { type := .POS, tableId := none, customerName := none, paidAmount := 500,
    items := [{ itemType := .PRODUCT, id := 1, quantity := 9, notes := none }] }

/-- Two-hour booking fully paid. -/
def bkInput1 : BookingInput :=
  { courtId := 9, customerName := "B1", startTime := 0, endTime := 7200000,
    paymentStatus := .UNPAID, paidAmount := 200 }

/-- Overlapping booking, unpaid. -/
def bkInput2 : BookingInput :=
  { courtId := 9, customerName := "B2", startTime := 3600000,
    endTime := 10800000, paymentStatus := .UNPAID, paidAmount := 0 }

/-- One-hour booking with `paidAmount` 0 but caller-supplied status PAID. -/
def bkInputPaid0 : BookingInput :=
  { courtId := 9, customerName := "B3", startTime := 0, endTime := 3600000,
    paymentStatus := .PAID, paidAmount := 0 }

/-- Store after the rental sale. -/
def c5s1 : DB := afterCreateTx exDB rentalInput

/-- ... then the rental completed (RENT stock restored). -/
def c5s2 : DB := afterCompleteTx c5s1 100

/-- ... then the completed rental cancelled (stock restored again). -/
def c5s3 : DB := afterCancelTx c5s2 100

/-- Store after the POS sale of a RENT product. -/
def c5t1 : DB := afterCreateTx exDB posRentInput

/-- ... then that sale cancelled (stock restored without any decrement). -/
def c5t2 : DB := afterCancelTx c5t1 100

/-- Store after the zero-paid booking carrying caller status PAID. -/
def c8s : DB := afterCreateBk exDB bkInputPaid0

/-- Store after booking the two-hour slot. -/
def c10s1 : DB := afterCreateBk exDB bkInput1

/-- ... then cancelling booking 101. -/
def c10s2 : DB := afterCancelBk c10s1 101

/-- ... then booking the overlapping slot. -/
def c10s3 : DB := afterCreateBk c10s2 bkInput2

/-- ... then completing the cancelled booking 101. -/
def c10s4 : DB := afterCompleteBk c10s3 101

end BBP

namespace BBP

theorem prodShift_zero (p : Product) : prodShift 0 p = p := by
  simp [prodShift]

theorem prodShift_comp (d e : Int) (p : Product) :
    prodShift d (prodShift e p) = prodShift (e + d) p := by
  simp [prodShift, add_assoc]

theorem menuShift_zero (m : Menu) : menuShift 0 m = m := by
  cases m with
  | mk name price stock isActive => cases stock <;> simp [menuShift]

theorem menuShift_comp (d e : Int) (m : Menu) :
    menuShift d (menuShift e m) = menuShift (e + d) m := by
  cases m with
  | mk name price stock isActive => cases stock <;> simp [menuShift, add_assoc]

theorem option_map_prodShift_zero (o : Option Product) :
    o.map (prodShift 0) = o := by
  cases o <;> simp [prodShift_zero]

theorem option_map_menuShift_zero (o : Option Menu) :
    o.map (menuShift 0) = o := by
  cases o <;> simp [menuShift_zero]

/-- Effect of one loop iteration on the products table: only the processed
item's own key moves, and only when the stock rule applies to it. -/
theorem processItem_products
    {ty : TxType} {st st' : ProcState} {i : ItemInput}
    (h : processItem ty st i = .ok st') (k : Nat) :
    findk st'.products k = (findk st.products k).map (fun p =>
      prodShift (-(if p.type = .SELL ∨ ty = .RENTAL then
        (if i.itemType = .PRODUCT ∧ i.id = k then (i.quantity : Int) else 0)
        else 0)) p) := by
  cases hit : i.itemType with
  | BOOKING =>
    simp only [processItem, hit, Except.ok.injEq] at h
    subst h
    simp [hit, option_map_prodShift_zero]
  | MENU =>
    simp only [processItem, hit] at h
    cases hm : findk st.menus i.id with
    | none => simp [hm] at h
    | some menu =>
      simp only [hm] at h
      by_cases hact : menu.isActive = false
      · simp [hact] at h
      · rw [if_neg hact] at h
        cases hs : menu.stock with
        | none =>
          simp only [hs, Except.ok.injEq] at h
          subst h
          simp [processItem.menuStep, hit, option_map_prodShift_zero]
        | some n =>
          simp only [hs] at h
          by_cases hlt : n < (i.quantity : Int)
          · rw [if_pos hlt] at h
            exact absurd h (by simp)
          · rw [if_neg hlt] at h
            simp only [Except.ok.injEq] at h
            subst h
            simp [processItem.menuStep, hit, option_map_prodShift_zero]
  | PRODUCT =>
    simp only [processItem, hit] at h
    cases hp : findk st.products i.id with
    | none => simp [hp] at h
    | some product =>
      simp only [hp] at h
      by_cases hact : product.isActive = false
      · simp [hact] at h
      · rw [if_neg hact] at h
        by_cases hchk : product.type = .SELL ∨ ty = .RENTAL
        · rw [if_pos hchk] at h
          by_cases hlt : product.stock < (i.quantity : Int)
          · rw [if_pos hlt] at h
            exact absurd h (by simp)
          · rw [if_neg hlt] at h
            simp only [Except.ok.injEq] at h
            subst h
            by_cases hk : i.id = k
            · subst hk
              rw [show (processItem.productStep st i product
                    (updk st.products i.id (fun p =>
                      { p with stock := product.stock - (i.quantity : Int) }))).products
                  = updk st.products i.id (fun p =>
                      { p with stock := product.stock - (i.quantity : Int) }) from rfl]
              rw [findk_updk_self, hp]
              have hty : product.type = ProductType.SELL ∨ ty = TxType.RENTAL := hchk
              simp [hit, hty, prodShift, sub_eq_add_neg]
            · rw [show (processItem.productStep st i product
                    (updk st.products i.id (fun p =>
                      { p with stock := product.stock - (i.quantity : Int) }))).products
                  = updk st.products i.id (fun p =>
                      { p with stock := product.stock - (i.quantity : Int) }) from rfl]
              rw [findk_updk_ne _ _ _ _ (fun hc => hk hc.symm)]
              simp [hit, fun hc : i.id = k => hk hc, option_map_prodShift_zero]
        · rw [if_neg hchk] at h
          simp only [Except.ok.injEq] at h
          subst h
          rw [show (processItem.productStep st i product st.products).products
              = st.products from rfl]
          by_cases hk : i.id = k
          · subst hk
            rw [hp]
            simp only [Option.map_some]
            have : ¬ (product.type = ProductType.SELL ∨ ty = TxType.RENTAL) := hchk
            simp [this, prodShift_zero]
          · cases hq : findk st.products k with
            | none => simp
            | some q =>
              simp only [Option.map_some]
              by_cases hqt : q.type = ProductType.SELL ∨ ty = TxType.RENTAL
              · simp [hqt, hit, fun hc : i.id = k => hk hc, prodShift_zero]
              · simp [hqt, prodShift_zero]

/-- Effect of one loop iteration on the menus table: only a tracked menu
at the processed item's own key moves. -/
theorem processItem_menus
    {ty : TxType} {st st' : ProcState} {i : ItemInput}
    (h : processItem ty st i = .ok st') (k : Nat) :
    findk st'.menus k = (findk st.menus k).map (menuShift
      (-(if i.itemType = .MENU ∧ i.id = k then (i.quantity : Int) else 0))) := by
  cases hit : i.itemType with
  | BOOKING =>
    simp only [processItem, hit, Except.ok.injEq] at h
    subst h
    simp [hit, option_map_menuShift_zero]
  | PRODUCT =>
    simp only [processItem, hit] at h
    cases hp : findk st.products i.id with
    | none => simp [hp] at h
    | some product =>
      simp only [hp] at h
      by_cases hact : product.isActive = false
      · simp [hact] at h
      · rw [if_neg hact] at h
        by_cases hchk : product.type = .SELL ∨ ty = .RENTAL
        · rw [if_pos hchk] at h
          by_cases hlt : product.stock < (i.quantity : Int)
          · rw [if_pos hlt] at h
            exact absurd h (by simp)
          · rw [if_neg hlt] at h
            simp only [Except.ok.injEq] at h
            subst h
            simp [processItem.productStep, hit, option_map_menuShift_zero]
        · rw [if_neg hchk] at h
          simp only [Except.ok.injEq] at h
          subst h
          simp [processItem.productStep, hit, option_map_menuShift_zero]
  | MENU =>
    simp only [processItem, hit] at h
    cases hm : findk st.menus i.id with
    | none => simp [hm] at h
    | some menu =>
      simp only [hm] at h
      by_cases hact : menu.isActive = false
      · simp [hact] at h
      · rw [if_neg hact] at h
        cases hs : menu.stock with
        | none =>
          simp only [hs, Except.ok.injEq] at h
          subst h
          rw [show (processItem.menuStep st i menu st.menus).menus
              = st.menus from rfl]
          by_cases hk : i.id = k
          · subst hk
            rw [hm]
            cases menu with
            | mk name price stock isActive =>
              simp only at hs
              subst hs
              simp [menuShift]
          · cases hq : findk st.menus k with
            | none => simp
            | some q =>
              simp [hit, fun hc : i.id = k => hk hc, menuShift_zero]
        | some n =>
          simp only [hs] at h
          by_cases hlt : n < (i.quantity : Int)
          · rw [if_pos hlt] at h
            exact absurd h (by simp)
          · rw [if_neg hlt] at h
            simp only [Except.ok.injEq] at h
            subst h
            rw [show (processItem.menuStep st i menu
                  (updk st.menus i.id (fun m =>
                    { m with stock := some (n - (i.quantity : Int)) }))).menus
                = updk st.menus i.id (fun m =>
                    { m with stock := some (n - (i.quantity : Int)) }) from rfl]
            by_cases hk : i.id = k
            · subst hk
              rw [findk_updk_self, hm]
              cases menu with
              | mk name price stock isActive =>
                simp only at hs
                subst hs
                simp [menuShift, sub_eq_add_neg]
            · rw [findk_updk_ne _ _ _ _ (fun hc => hk hc.symm)]
              simp [hit, fun hc : i.id = k => hk hc, option_map_menuShift_zero]

/-- Net effect of the whole item loop on the products table: every product
is decremented by exactly the stock-checked quantity charged against it. -/
theorem processItems_products {ty : TxType} {items : List ItemInput} :
    ∀ {st st' : ProcState}, processItems ty st items = .ok st' → ∀ k,
    findk st'.products k = (findk st.products k).map (fun p =>
      prodShift (-(prodDelta ty items k p)) p) := by
  induction items with
  | nil =>
    intro st st' h k
    simp only [processItems, Except.ok.injEq] at h
    subst h
    cases ho : findk st.products k <;>
      simp [prodDelta, prodQty, prodShift_zero, ite_self]
  | cons i rest ih =>
    intro st st' h k
    simp only [processItems] at h
    cases hstep : processItem ty st i with
    | error e =>
      rw [hstep] at h
      exact absurd h (by simp)
    | ok st₁ =>
      rw [hstep] at h
      rw [ih h k, processItem_products hstep k]
      cases ho : findk st.products k with
      | none => rfl
      | some p =>
        simp only [Option.map_some', prodDelta, prodShift, Option.some.injEq]
        rw [show prodQty k (i :: rest)
            = (if i.itemType = .PRODUCT ∧ i.id = k then (i.quantity : Int) else 0)
              + prodQty k rest from rfl]
        split_ifs <;>
          simp only [Product.mk.injEq, true_and, and_true] <;> ring_nf

/-- Net effect of the whole item loop on the menus table: every tracked
menu is decremented by exactly the quantity charged against it. -/
theorem processItems_menus {ty : TxType} {items : List ItemInput} :
    ∀ {st st' : ProcState}, processItems ty st items = .ok st' → ∀ k,
    findk st'.menus k = (findk st.menus k).map (menuShift (-(menuQty k items))) := by
  induction items with
  | nil =>
    intro st st' h k
    simp only [processItems, Except.ok.injEq] at h
    subst h
    cases ho : findk st.menus k with
    | none => rfl
    | some m => simp [menuQty, menuShift_zero]
  | cons i rest ih =>
    intro st st' h k
    simp only [processItems] at h
    cases hstep : processItem ty st i with
    | error e =>
      rw [hstep] at h
      exact absurd h (by simp)
    | ok st₁ =>
      rw [hstep] at h
      rw [ih h k, processItem_menus hstep k]
      cases ho : findk st.menus k with
      | none => rfl
      | some m =>
        simp only [Option.map_some', menuShift_comp, Option.some.injEq]
        rw [show menuQty k (i :: rest)
            = (if i.itemType = .MENU ∧ i.id = k then (i.quantity : Int) else 0)
              + menuQty k rest from rfl]
        congr 1
        ring

theorem sumSub_append (l₁ l₂ : List TransactionItem) :
    sumSub (l₁ ++ l₂) = sumSub l₁ + sumSub l₂ := by
  induction l₁ with
  | nil => simp [sumSub]
  | cons it rest ih => simp [sumSub, ih, add_assoc]

/-- One loop iteration keeps `totalAmount` in lock-step with the sum of
the processed items' subtotals. -/
theorem processItem_total
    {ty : TxType} {st st' : ProcState} {i : ItemInput}
    (h : processItem ty st i = .ok st') :
    st'.totalAmount - sumSub st'.processedItems
      = st.totalAmount - sumSub st.processedItems := by
  cases hit : i.itemType with
  | BOOKING =>
    simp only [processItem, hit, Except.ok.injEq] at h
    subst h
    rfl
  | PRODUCT =>
    simp only [processItem, hit] at h
    cases hp : findk st.products i.id with
    | none => simp [hp] at h
    | some product =>
      simp only [hp] at h
      by_cases hact : product.isActive = false
      · simp [hact] at h
      · rw [if_neg hact] at h
        by_cases hchk : product.type = .SELL ∨ ty = .RENTAL
        · rw [if_pos hchk] at h
          by_cases hlt : product.stock < (i.quantity : Int)
          · rw [if_pos hlt] at h
            exact absurd h (by simp)
          · rw [if_neg hlt] at h
            simp only [Except.ok.injEq] at h
            subst h
            simp [processItem.productStep, sumSub_append, sumSub]
            try ring
        · rw [if_neg hchk] at h
          simp only [Except.ok.injEq] at h
          subst h
          simp [processItem.productStep, sumSub_append, sumSub]
          try ring
  | MENU =>
    simp only [processItem, hit] at h
    cases hm : findk st.menus i.id with
    | none => simp [hm] at h
    | some menu =>
      simp only [hm] at h
      by_cases hact : menu.isActive = false
      · simp [hact] at h
      · rw [if_neg hact] at h
        cases hs : menu.stock with
        | none =>
          simp only [hs, Except.ok.injEq] at h
          subst h
          simp [processItem.menuStep, sumSub_append, sumSub]
          try ring
        | some n =>
          simp only [hs] at h
          by_cases hlt : n < (i.quantity : Int)
          · rw [if_pos hlt] at h
            exact absurd h (by simp)
          · rw [if_neg hlt] at h
            simp only [Except.ok.injEq] at h
            subst h
            simp [processItem.menuStep, sumSub_append, sumSub]
            try ring

theorem prodQtyT_append (k : Nat) (l₁ l₂ : List TransactionItem) :
    prodQtyT k (l₁ ++ l₂) = prodQtyT k l₁ + prodQtyT k l₂ := by
  induction l₁ with
  | nil => simp [prodQtyT]
  | cons it rest ih => simp [prodQtyT, ih, add_assoc]

theorem menuQtyT_append (k : Nat) (l₁ l₂ : List TransactionItem) :
    menuQtyT k (l₁ ++ l₂) = menuQtyT k l₁ + menuQtyT k l₂ := by
  induction l₁ with
  | nil => simp [menuQtyT]
  | cons it rest ih => simp [menuQtyT, ih, add_assoc]

/-- One loop iteration appends exactly the processed item's contribution to
the per-key quantities of the processed-items list. -/
theorem processItem_qtyT
    {ty : TxType} {st st' : ProcState} {i : ItemInput}
    (h : processItem ty st i = .ok st') (k : Nat) :
    prodQtyT k st'.processedItems = prodQtyT k st.processedItems +
      (if i.itemType = .PRODUCT ∧ i.id = k then (i.quantity : Int) else 0) ∧
    menuQtyT k st'.processedItems = menuQtyT k st.processedItems +
      (if i.itemType = .MENU ∧ i.id = k then (i.quantity : Int) else 0) := by
  cases hit : i.itemType with
  | BOOKING =>
    simp only [processItem, hit, Except.ok.injEq] at h
    subst h
    simp [hit]
  | PRODUCT =>
    simp only [processItem, hit] at h
    cases hp : findk st.products i.id with
    | none => simp [hp] at h
    | some product =>
      simp only [hp] at h
      by_cases hact : product.isActive = false
      · simp [hact] at h
      · rw [if_neg hact] at h
        have key : ∀ products',
            (processItem.productStep st i product products').processedItems
              = st.processedItems ++
                [{ itemType := .PRODUCT, productId := some i.id, menuId := none,
                   quantity := i.quantity, unitPrice := product.price,
                   subtotal := product.price * (i.quantity : Rat),
                   notes := i.notes }] := fun _ => rfl
        by_cases hchk : product.type = .SELL ∨ ty = .RENTAL
        · rw [if_pos hchk] at h
          by_cases hlt : product.stock < (i.quantity : Int)
          · rw [if_pos hlt] at h
            exact absurd h (by simp)
          · rw [if_neg hlt] at h
            simp only [Except.ok.injEq] at h
            subst h
            rw [key, prodQtyT_append, menuQtyT_append]
            constructor
            · by_cases hk : i.id = k <;>
                simp [prodQtyT, hit, hk]
            · simp [menuQtyT]
        · rw [if_neg hchk] at h
          simp only [Except.ok.injEq] at h
          subst h
          rw [key, prodQtyT_append, menuQtyT_append]
          constructor
          · by_cases hk : i.id = k <;>
              simp [prodQtyT, hit, hk]
          · simp [menuQtyT]
  | MENU =>
    simp only [processItem, hit] at h
    cases hm : findk st.menus i.id with
    | none => simp [hm] at h
    | some menu =>
      simp only [hm] at h
      by_cases hact : menu.isActive = false
      · simp [hact] at h
      · rw [if_neg hact] at h
        have key : ∀ menus',
            (processItem.menuStep st i menu menus').processedItems
              = st.processedItems ++
                [{ itemType := .MENU, productId := none, menuId := some i.id,
                   quantity := i.quantity, unitPrice := menu.price,
                   subtotal := menu.price * (i.quantity : Rat),
                   notes := i.notes }] := fun _ => rfl
        cases hs : menu.stock with
        | none =>
          simp only [hs, Except.ok.injEq] at h
          subst h
          rw [key, prodQtyT_append, menuQtyT_append]
          constructor
          · simp [prodQtyT]
          · by_cases hk : i.id = k <;>
              simp [menuQtyT, hit, hk]
        | some n =>
          simp only [hs] at h
          by_cases hlt : n < (i.quantity : Int)
          · rw [if_pos hlt] at h
            exact absurd h (by simp)
          · rw [if_neg hlt] at h
            simp only [Except.ok.injEq] at h
            subst h
            rw [key, prodQtyT_append, menuQtyT_append]
            constructor
            · simp [prodQtyT]
            · by_cases hk : i.id = k <;>
                simp [menuQtyT, hit, hk]

/-- The whole loop appends exactly the request's per-key quantities. -/
theorem processItems_qtyT {ty : TxType} {items : List ItemInput} :
    ∀ {st st' : ProcState}, processItems ty st items = .ok st' → ∀ k,
    prodQtyT k st'.processedItems
      = prodQtyT k st.processedItems + prodQty k items ∧
    menuQtyT k st'.processedItems
      = menuQtyT k st.processedItems + menuQty k items := by
  induction items with
  | nil =>
    intro st st' h k
    simp only [processItems, Except.ok.injEq] at h
    subst h
    simp [prodQty, menuQty]
  | cons i rest ih =>
    intro st st' h k
    simp only [processItems] at h
    cases hstep : processItem ty st i with
    | error e =>
      rw [hstep] at h
      exact absurd h (by simp)
    | ok st₁ =>
      rw [hstep] at h
      obtain ⟨hp1, hm1⟩ := processItem_qtyT hstep k
      obtain ⟨hp2, hm2⟩ := ih h k
      constructor
      · rw [hp2, hp1,
          show prodQty k (i :: rest)
            = (if i.itemType = .PRODUCT ∧ i.id = k then (i.quantity : Int) else 0)
              + prodQty k rest from rfl]
        ring
      · rw [hm2, hm1,
          show menuQty k (i :: rest)
            = (if i.itemType = .MENU ∧ i.id = k then (i.quantity : Int) else 0)
              + menuQty k rest from rfl]
        ring

/-- The whole loop keeps `totalAmount` in lock-step with the sum of the
processed items' subtotals. -/
theorem processItems_total {ty : TxType} {items : List ItemInput} :
    ∀ {st st' : ProcState}, processItems ty st items = .ok st' →
    st'.totalAmount - sumSub st'.processedItems
      = st.totalAmount - sumSub st.processedItems := by
  induction items with
  | nil =>
    intro st st' h
    simp only [processItems, Except.ok.injEq] at h
    subst h
    rfl
  | cons i rest ih =>
    intro st st' h
    simp only [processItems] at h
    cases hstep : processItem ty st i with
    | error e =>
      rw [hstep] at h
      exact absurd h (by simp)
    | ok st₁ =>
      rw [hstep] at h
      rw [ih h, processItem_total hstep]

theorem prodShift_price (d : Int) (p : Product) :
    (prodShift d p).price = p.price := rfl

theorem prodShift_isActive (d : Int) (p : Product) :
    (prodShift d p).isActive = p.isActive := rfl

theorem prodShift_type (d : Int) (p : Product) :
    (prodShift d p).type = p.type := rfl

theorem menuShift_price (d : Int) (m : Menu) :
    (menuShift d m).price = m.price := by
  cases m with
  | mk name price stock isActive => cases stock <;> rfl

theorem menuShift_isActive (d : Int) (m : Menu) :
    (menuShift d m).isActive = m.isActive := by
  cases m with
  | mk name price stock isActive => cases stock <;> rfl

theorem menuShift_isSome (d : Int) (m : Menu) :
    (menuShift d m).stock.isSome = m.stock.isSome := by
  cases m with
  | mk name price stock isActive => cases stock <;> rfl

/-- A loop iteration does not touch product rows at keys other than the
processed item's own. -/
theorem processItem_products_other
    {ty : TxType} {st st' : ProcState} {i : ItemInput}
    (h : processItem ty st i = .ok st') {k : Nat}
    (hne : ¬(i.itemType = .PRODUCT ∧ i.id = k)) :
    findk st'.products k = findk st.products k := by
  rw [processItem_products h k]
  cases ho : findk st.products k with
  | none => rfl
  | some p => simp [hne, ite_self, prodShift_zero]

/-- A loop iteration does not touch menu rows at keys other than the
processed item's own. -/
theorem processItem_menus_other
    {ty : TxType} {st st' : ProcState} {i : ItemInput}
    (h : processItem ty st i = .ok st') {k : Nat}
    (hne : ¬(i.itemType = .MENU ∧ i.id = k)) :
    findk st'.menus k = findk st.menus k := by
  rw [processItem_menus h k]
  cases ho : findk st.menus k with
  | none => rfl
  | some m => simp [hne, menuShift_zero]

/-- A loop iteration preserves presence, activity and prices of catalog
rows, so `foundActive` is stable across it. -/
theorem processItem_foundActive_iff
    {ty : TxType} {st st' : ProcState} {i : ItemInput}
    (h : processItem ty st i = .ok st') (j : ItemInput) :
    foundActive st.products st.menus j ↔ foundActive st'.products st'.menus j := by
  have hP := processItem_products h j.id
  have hM := processItem_menus h j.id
  unfold foundActive
  constructor
  · rintro ⟨h1, h2⟩
    refine ⟨fun hj => ?_, fun hj => ?_⟩
    · obtain ⟨p, hp, hact⟩ := h1 hj
      refine ⟨_, by rw [hP, hp]; rfl, by rw [prodShift_isActive]; exact hact⟩
    · obtain ⟨m, hm, hact⟩ := h2 hj
      refine ⟨_, by rw [hM, hm]; rfl, by rw [menuShift_isActive]; exact hact⟩
  · rintro ⟨h1, h2⟩
    refine ⟨fun hj => ?_, fun hj => ?_⟩
    · obtain ⟨p, hp, hact⟩ := h1 hj
      rw [hP] at hp
      obtain ⟨q, hq, hqe⟩ := Option.map_eq_some'.mp hp
      refine ⟨q, hq, ?_⟩
      have := prodShift_isActive (-(prodDelta ty [i] j.id q)) q
      rw [← hqe] at hact
      rw [← prodShift_isActive (-(if q.type = .SELL ∨ ty = .RENTAL then
        (if i.itemType = .PRODUCT ∧ i.id = j.id then (i.quantity : Int) else 0)
        else 0)) q]
      exact hact
    · obtain ⟨m, hm, hact⟩ := h2 hj
      rw [hM] at hm
      obtain ⟨q, hq, hqe⟩ := Option.map_eq_some'.mp hm
      refine ⟨q, hq, ?_⟩
      rw [← hqe] at hact
      rw [← menuShift_isActive
        (-(if i.itemType = .MENU ∧ i.id = j.id then (i.quantity : Int) else 0)) q]
      exact hact

/-- A loop iteration preserves `itemSpec` (pricing facts reference only
presence and prices, which never change during the loop). -/
theorem processItem_itemSpec_iff
    {ty : TxType} {st st' : ProcState} {i : ItemInput}
    (h : processItem ty st i = .ok st') (it : TransactionItem) :
    itemSpec st.products st.menus it ↔ itemSpec st'.products st'.menus it := by
  unfold itemSpec
  constructor
  · rintro ⟨h0, h1, h2⟩
    refine ⟨h0, fun hj => ?_, fun hj => ?_⟩
    · obtain ⟨pid, p, hid, hp, hpr⟩ := h1 hj
      exact ⟨pid, _, hid, by rw [processItem_products h pid, hp]; rfl,
        by rw [prodShift_price]; exact hpr⟩
    · obtain ⟨mid, m, hid, hm, hpr⟩ := h2 hj
      exact ⟨mid, _, hid, by rw [processItem_menus h mid, hm]; rfl,
        by rw [menuShift_price]; exact hpr⟩
  · rintro ⟨h0, h1, h2⟩
    refine ⟨h0, fun hj => ?_, fun hj => ?_⟩
    · obtain ⟨pid, p, hid, hp, hpr⟩ := h1 hj
      rw [processItem_products h pid] at hp
      obtain ⟨q, hq, hqe⟩ := Option.map_eq_some'.mp hp
      refine ⟨pid, q, hid, hq, ?_⟩
      rw [← hqe] at hpr
      rwa [prodShift_price] at hpr
    · obtain ⟨mid, m, hid, hm, hpr⟩ := h2 hj
      rw [processItem_menus h mid] at hm
      obtain ⟨q, hq, hqe⟩ := Option.map_eq_some'.mp hm
      refine ⟨mid, q, hid, hq, ?_⟩
      rw [← hqe] at hpr
      rwa [menuShift_price] at hpr

/-- Each item appended by a loop iteration satisfies the pricing facts
with respect to the pre-iteration catalog. -/
theorem processItem_newItems
    {ty : TxType} {st st' : ProcState} {i : ItemInput}
    (h : processItem ty st i = .ok st') :
    ∀ it ∈ st'.processedItems,
      it ∈ st.processedItems ∨ itemSpec st.products st.menus it := by
  cases hit : i.itemType with
  | BOOKING =>
    simp only [processItem, hit, Except.ok.injEq] at h
    subst h
    exact fun it hm => Or.inl hm
  | PRODUCT =>
    simp only [processItem, hit] at h
    cases hp : findk st.products i.id with
    | none => simp [hp] at h
    | some product =>
      simp only [hp] at h
      by_cases hact : product.isActive = false
      · simp [hact] at h
      · rw [if_neg hact] at h
        have key : ∀ products' it,
            it ∈ (processItem.productStep st i product products').processedItems →
            it ∈ st.processedItems ∨ itemSpec st.products st.menus it := by
          intro products' it hmem
          rw [show (processItem.productStep st i product products').processedItems
              = st.processedItems ++
                [{ itemType := .PRODUCT, productId := some i.id, menuId := none,
                   quantity := i.quantity, unitPrice := product.price,
                   subtotal := product.price * (i.quantity : Rat),
                   notes := i.notes }] from rfl] at hmem
          rcases List.mem_append.mp hmem with hold | hnew
          · exact Or.inl hold
          · refine Or.inr ?_
            rw [List.mem_singleton.mp hnew]
            refine ⟨rfl, fun _ => ⟨i.id, product, rfl, hp, rfl⟩, fun hc => ?_⟩
            exact absurd hc (by simp)
        by_cases hchk : product.type = .SELL ∨ ty = .RENTAL
        · rw [if_pos hchk] at h
          by_cases hlt : product.stock < (i.quantity : Int)
          · rw [if_pos hlt] at h
            exact absurd h (by simp)
          · rw [if_neg hlt] at h
            simp only [Except.ok.injEq] at h
            subst h
            exact key _
        · rw [if_neg hchk] at h
          simp only [Except.ok.injEq] at h
          subst h
          exact key _
  | MENU =>
    simp only [processItem, hit] at h
    cases hm : findk st.menus i.id with
    | none => simp [hm] at h
    | some menu =>
      simp only [hm] at h
      by_cases hact : menu.isActive = false
      · simp [hact] at h
      · rw [if_neg hact] at h
        have key : ∀ menus' it,
            it ∈ (processItem.menuStep st i menu menus').processedItems →
            it ∈ st.processedItems ∨ itemSpec st.products st.menus it := by
          intro menus' it hmem
          rw [show (processItem.menuStep st i menu menus').processedItems
              = st.processedItems ++
                [{ itemType := .MENU, productId := none, menuId := some i.id,
                   quantity := i.quantity, unitPrice := menu.price,
                   subtotal := menu.price * (i.quantity : Rat),
                   notes := i.notes }] from rfl] at hmem
          rcases List.mem_append.mp hmem with hold | hnew
          · exact Or.inl hold
          · refine Or.inr ?_
            rw [List.mem_singleton.mp hnew]
            refine ⟨rfl, fun hc => absurd hc (by simp),
              fun _ => ⟨i.id, menu, rfl, hm, rfl⟩⟩
        cases hs : menu.stock with
        | none =>
          simp only [hs, Except.ok.injEq] at h
          subst h
          exact key _
        | some n =>
          simp only [hs] at h
          by_cases hlt : n < (i.quantity : Int)
          · rw [if_pos hlt] at h
            exact absurd h (by simp)
          · rw [if_neg hlt] at h
            simp only [Except.ok.injEq] at h
            subst h
            exact key _

/-- All items processed by the loop satisfy the pricing facts with respect
to the catalog as it stood when the loop began. -/
theorem processItems_itemSpec {ty : TxType} {items : List ItemInput} :
    ∀ {st st' : ProcState}, processItems ty st items = .ok st' →
    (∀ it ∈ st.processedItems, itemSpec st.products st.menus it) →
    ∀ it ∈ st'.processedItems, itemSpec st.products st.menus it := by
  induction items with
  | nil =>
    intro st st' h hbase
    simp only [processItems, Except.ok.injEq] at h
    subst h
    exact hbase
  | cons i rest ih =>
    intro st st' h hbase it hit
    simp only [processItems] at h
    cases hstep : processItem ty st i with
    | error e =>
      rw [hstep] at h
      exact absurd h (by simp)
    | ok st₁ =>
      rw [hstep] at h
      have hbase₁ : ∀ it ∈ st₁.processedItems, itemSpec st₁.products st₁.menus it := by
        intro it' hit'
        rcases processItem_newItems hstep it' hit' with hold | hnew
        · exact (processItem_itemSpec_iff hstep it').mp (hbase it' hold)
        · exact (processItem_itemSpec_iff hstep it').mp hnew
      exact (processItem_itemSpec_iff hstep it).mpr (ih h hbase₁ it hit)

/-- A successfully processed item referenced an existing, active catalog
record with enough stock wherever the stock rule applied. -/
theorem processItem_self_spec
    {ty : TxType} {st st' : ProcState} {i : ItemInput}
    (h : processItem ty st i = .ok st') :
    foundActive st.products st.menus i ∧ stockOkAt st.products st.menus ty i := by
  cases hit : i.itemType with
  | BOOKING =>
    refine ⟨⟨fun hc => ?_, fun hc => ?_⟩, ⟨fun hc => ?_, fun hc => ?_⟩⟩ <;>
      rw [hit] at hc <;> exact absurd hc (by simp)
  | PRODUCT =>
    simp only [processItem, hit] at h
    cases hp : findk st.products i.id with
    | none => simp [hp] at h
    | some product =>
      simp only [hp] at h
      by_cases hact : product.isActive = false
      · simp [hact] at h
      · rw [if_neg hact] at h
        have hactT : product.isActive = true := by
          revert hact
          cases product.isActive <;> simp
        have hfa : foundActive st.products st.menus i :=
          ⟨fun _ => ⟨product, hp, hactT⟩, fun hc => by rw [hit] at hc; exact absurd hc (by simp)⟩
        by_cases hchk : product.type = .SELL ∨ ty = .RENTAL
        · rw [if_pos hchk] at h
          by_cases hlt : product.stock < (i.quantity : Int)
          · rw [if_pos hlt] at h
            exact absurd h (by simp)
          · refine ⟨hfa, ⟨fun _ p hp' _ => ?_, fun hc => by rw [hit] at hc; exact absurd hc (by simp)⟩⟩
            rw [hp] at hp'
            cases hp'
            exact Int.not_lt.mp hlt
        · refine ⟨hfa, ⟨fun _ p hp' hcond => ?_, fun hc => by rw [hit] at hc; exact absurd hc (by simp)⟩⟩
          rw [hp] at hp'
          cases hp'
          exact absurd hcond hchk
  | MENU =>
    simp only [processItem, hit] at h
    cases hm : findk st.menus i.id with
    | none => simp [hm] at h
    | some menu =>
      simp only [hm] at h
      by_cases hact : menu.isActive = false
      · simp [hact] at h
      · rw [if_neg hact] at h
        have hactT : menu.isActive = true := by
          revert hact
          cases menu.isActive <;> simp
        have hfa : foundActive st.products st.menus i :=
          ⟨fun hc => by rw [hit] at hc; exact absurd hc (by simp), fun _ => ⟨menu, hm, hactT⟩⟩
        cases hs : menu.stock with
        | none =>
          refine ⟨hfa, ⟨fun hc => by rw [hit] at hc; exact absurd hc (by simp),
            fun _ m n hm' hn => ?_⟩⟩
          rw [hm] at hm'
          cases hm'
          rw [hs] at hn
          exact absurd hn (by simp)
        | some n =>
          simp only [hs] at h
          by_cases hlt : n < (i.quantity : Int)
          · rw [if_pos hlt] at h
            exact absurd h (by simp)
          · refine ⟨hfa, ⟨fun hc => by rw [hit] at hc; exact absurd hc (by simp),
              fun _ m n' hm' hn => ?_⟩⟩
            rw [hm] at hm'
            cases hm'
            rw [hs] at hn
            cases hn
            exact Int.not_lt.mp hlt

/-- After a successful run of the loop, every request item referenced an
existing active record satisfying the stock rule at loop entry (distinct
item keys ensure no earlier iteration masked the check). -/
theorem processItems_itemOk {ty : TxType} {items : List ItemInput} :
    ∀ {st st' : ProcState}, processItems ty st items = .ok st' →
    (items.map pairOf).Nodup →
    ∀ i ∈ items, foundActive st.products st.menus i ∧ stockOkAt st.products st.menus ty i := by
  induction items with
  | nil =>
    intro st st' _ _ i hi
    exact absurd hi (by simp)
  | cons i rest ih =>
    intro st st' h hnd j hj
    simp only [processItems] at h
    cases hstep : processItem ty st i with
    | error e =>
      rw [hstep] at h
      exact absurd h (by simp)
    | ok st₁ =>
      rw [hstep] at h
      rw [List.map_cons, List.nodup_cons] at hnd
      obtain ⟨hhead, htail⟩ := hnd
      rcases List.mem_cons.mp hj with rfl | hjr
      · exact processItem_self_spec hstep
      · have hpair : pairOf i ≠ pairOf j := fun hc => by
          exact hhead (hc ▸ List.mem_map_of_mem pairOf hjr)
        obtain ⟨hfa₁, hso₁⟩ := ih h htail j hjr
        refine ⟨(processItem_foundActive_iff hstep j).mpr hfa₁, ?_⟩
        constructor
        · intro hjt p hp hcond
          have hne : ¬(i.itemType = .PRODUCT ∧ i.id = j.id) := by
            rintro ⟨hA, hB⟩
            exact hpair (by simp [pairOf, hA, hB, hjt])
          rw [← processItem_products_other hstep hne] at hp
          exact hso₁.1 hjt p hp hcond
        · intro hjt m n hm hn
          have hne : ¬(i.itemType = .MENU ∧ i.id = j.id) := by
            rintro ⟨hA, hB⟩
            exact hpair (by simp [pairOf, hA, hB, hjt])
          rw [← processItem_menus_other hstep hne] at hm
          exact hso₁.2 hjt m n hm hn

/-- An item that violates the stock rule makes its loop iteration throw the
insufficient-stock error naming the record and its available stock. -/
theorem processItem_under_error {ty : TxType} {st : ProcState} {i : ItemInput}
    (hfa : foundActive st.products st.menus i)
    (hu : underAt st.products st.menus ty i) :
    (i.itemType = .PRODUCT ∧ ∃ p, findk st.products i.id = some p ∧
      p.stock < (i.quantity : Int) ∧
      processItem ty st i = .error (.insufficientStock p.name p.stock)) ∨
    (i.itemType = .MENU ∧ ∃ m n, findk st.menus i.id = some m ∧ m.stock = some n ∧
      n < (i.quantity : Int) ∧
      processItem ty st i = .error (.insufficientStock m.name n)) := by
  rcases hu with ⟨hit, p, hp, hchk, hlt⟩ | ⟨hit, m, n, hm, hn, hlt⟩
  · obtain ⟨p', hp', hact⟩ := hfa.1 hit
    rw [hp] at hp'
    cases hp'
    refine Or.inl ⟨hit, p, hp, hlt, ?_⟩
    simp only [processItem, hit, hp]
    rw [if_neg (by simp [hact]), if_pos hchk, if_pos hlt]
  · obtain ⟨m', hm', hact⟩ := hfa.2 hit
    rw [hm] at hm'
    cases hm'
    refine Or.inr ⟨hit, m, n, hm, hn, hlt, ?_⟩
    simp only [processItem, hit, hm]
    rw [if_neg (by simp [hact])]
    simp only [hn]
    rw [if_pos hlt]

/-- An item that satisfies the stock rule (and references an existing
active record) is processed without error. -/
theorem processItem_ok_of {ty : TxType} {st : ProcState} {i : ItemInput}
    (hfa : foundActive st.products st.menus i)
    (hnu : ¬ underAt st.products st.menus ty i) :
    ∃ st', processItem ty st i = .ok st' := by
  cases hit : i.itemType with
  | BOOKING => exact ⟨st, by simp [processItem, hit]⟩
  | PRODUCT =>
    obtain ⟨p, hp, hact⟩ := hfa.1 hit
    by_cases hchk : p.type = .SELL ∨ ty = .RENTAL
    · have hge : ¬ p.stock < (i.quantity : Int) := fun hlt =>
        hnu (Or.inl ⟨hit, p, hp, hchk, hlt⟩)
      refine ⟨processItem.productStep st i p (updk st.products i.id (fun q =>
        { q with stock := p.stock - (i.quantity : Int) })), ?_⟩
      simp only [processItem, hit, hp]
      rw [if_neg (by simp [hact]), if_pos hchk, if_neg hge]
    · refine ⟨processItem.productStep st i p st.products, ?_⟩
      simp only [processItem, hit, hp]
      rw [if_neg (by simp [hact]), if_neg hchk]
  | MENU =>
    obtain ⟨m, hm, hact⟩ := hfa.2 hit
    cases hs : m.stock with
    | none =>
      refine ⟨processItem.menuStep st i m st.menus, ?_⟩
      simp only [processItem, hit, hm]
      rw [if_neg (by simp [hact])]
      simp only [hs]
    | some n =>
      have hge : ¬ n < (i.quantity : Int) := fun hlt =>
        hnu (Or.inr ⟨hit, m, n, hm, hs, hlt⟩)
      refine ⟨processItem.menuStep st i m (updk st.menus i.id (fun q =>
        { q with stock := some (n - (i.quantity : Int)) })), ?_⟩
      simp only [processItem, hit, hm]
      rw [if_neg (by simp [hact])]
      simp only [hs]
      rw [if_neg hge]

/-- If every request item references an existing active record but some
item violates the stock rule, the loop fails with an insufficient-stock
error naming one such item's record and available stock. -/
theorem processItems_under_fails {ty : TxType} {items : List ItemInput} :
    ∀ {st : ProcState}, (items.map pairOf).Nodup →
    (∀ i ∈ items, foundActive st.products st.menus i) →
    (∃ i ∈ items, underAt st.products st.menus ty i) →
    ∃ i ∈ items,
      ((i.itemType = .PRODUCT ∧ ∃ p, findk st.products i.id = some p ∧
          p.stock < (i.quantity : Int) ∧
          processItems ty st items = .error (.insufficientStock p.name p.stock)) ∨
       (i.itemType = .MENU ∧ ∃ m n, findk st.menus i.id = some m ∧
          m.stock = some n ∧ n < (i.quantity : Int) ∧
          processItems ty st items = .error (.insufficientStock m.name n))) := by
  induction items with
  | nil =>
    intro st _ _ hex
    obtain ⟨i, hi, _⟩ := hex
    exact absurd hi (by simp)
  | cons i rest ih =>
    intro st hnd hfa hex
    rw [List.map_cons, List.nodup_cons] at hnd
    obtain ⟨hhead, htail⟩ := hnd
    by_cases hu : underAt st.products st.menus ty i
    · rcases processItem_under_error (hfa i (List.mem_cons_self i rest)) hu with
        ⟨hit, p, hp, hlt, herr⟩ | ⟨hit, m, n, hm, hn, hlt, herr⟩
      · exact ⟨i, List.mem_cons_self i rest, Or.inl ⟨hit, p, hp, hlt, by
          simp only [processItems, herr]⟩⟩
      · exact ⟨i, List.mem_cons_self i rest, Or.inr ⟨hit, m, n, hm, hn, hlt, by
          simp only [processItems, herr]⟩⟩
    · obtain ⟨st₁, hstep⟩ := processItem_ok_of (hfa i (List.mem_cons_self i rest)) hu
      obtain ⟨j, hj, hju⟩ := hex
      have hjr : j ∈ rest := by
        rcases List.mem_cons.mp hj with rfl | hjr
        · exact absurd hju hu
        · exact hjr
      have hfa₁ : ∀ j' ∈ rest, foundActive st₁.products st₁.menus j' :=
        fun j' hj' => (processItem_foundActive_iff hstep j').mp
          (hfa j' (List.mem_cons_of_mem i hj'))
      have hju₁ : underAt st₁.products st₁.menus ty j := by
        have hpair : pairOf i ≠ pairOf j := fun hc =>
          hhead (hc ▸ List.mem_map_of_mem pairOf hjr)
        rcases hju with ⟨hjt, p, hp, hchk, hlt⟩ | ⟨hjt, m, n, hm, hn, hlt⟩
        · have hne : ¬(i.itemType = .PRODUCT ∧ i.id = j.id) := by
            rintro ⟨hA, hB⟩
            exact hpair (by simp [pairOf, hA, hB, hjt])
          exact Or.inl ⟨hjt, p, by rw [processItem_products_other hstep hne]; exact hp,
            hchk, hlt⟩
        · have hne : ¬(i.itemType = .MENU ∧ i.id = j.id) := by
            rintro ⟨hA, hB⟩
            exact hpair (by simp [pairOf, hA, hB, hjt])
          exact Or.inr ⟨hjt, m, n, by rw [processItem_menus_other hstep hne]; exact hm,
            hn, hlt⟩
      obtain ⟨i', hi', hcase⟩ := ih htail hfa₁ ⟨j, hjr, hju₁⟩
      have hpair' : pairOf i ≠ pairOf i' := fun hc =>
        hhead (hc ▸ List.mem_map_of_mem pairOf hi')
      rcases hcase with ⟨hi't, p, hp₁, hlt, herr⟩ | ⟨hi't, m, n, hm₁, hn, hlt, herr⟩
      · have hne : ¬(i.itemType = .PRODUCT ∧ i.id = i'.id) := by
          rintro ⟨hA, hB⟩
          exact hpair' (by simp [pairOf, hA, hB, hi't])
        refine ⟨i', List.mem_cons_of_mem i hi', Or.inl ⟨hi't, p,
          by rw [← processItem_products_other hstep hne]; exact hp₁, hlt, ?_⟩⟩
        simp only [processItems, hstep]
        exact herr
      · have hne : ¬(i.itemType = .MENU ∧ i.id = i'.id) := by
          rintro ⟨hA, hB⟩
          exact hpair' (by simp [pairOf, hA, hB, hi't])
        refine ⟨i', List.mem_cons_of_mem i hi', Or.inr ⟨hi't, m, n,
          by rw [← processItem_menus_other hstep hne]; exact hm₁, hn, hlt, ?_⟩⟩
        simp only [processItems, hstep]
        exact herr

/-- Elimination form of a successful `createTransaction`: the table
pre-check passed, the item loop succeeded, the payment covered the total,
and the committed store is exactly the loop's catalog plus the new
transaction row and the occupied table. -/
theorem createTransaction_ok {s : DB} {inp : CreateTxInput} {s' : DB} {tid : Nat}
    (h : createTransaction s inp = .ok (s', tid)) :
    tableOk s inp ∧
    ∃ st, processItems inp.type (initProc s) inp.items = .ok st ∧
      ¬ inp.paidAmount - st.totalAmount < 0 ∧ tid = s.nextId ∧
      s'.products = st.products ∧ s'.menus = st.menus ∧
      s'.transactions = s.transactions ++ [(s.nextId,
        { invoiceNumber := s.transactions.length + 1
          type := inp.type
          tableId := inp.tableId
          customerName := inp.customerName
          totalAmount := st.totalAmount
          paidAmount := inp.paidAmount
          changeAmount := inp.paidAmount - st.totalAmount
          status := .PAID
          items := st.processedItems
          sellRecords := st.sellItems
          rentRecords := st.rentItems })] ∧
      s'.tables = (match inp.tableId with
        | some tid' => updk s.tables tid' (fun t =>
            { t with status := .OCCUPIED, currentCustomerName := inp.customerName })
        | none => s.tables) ∧
      s'.nextId = s.nextId + 1 := by
  simp only [createTransaction] at h
  rcases htid : inp.tableId with _ | tid'
  · rw [htid] at h
    dsimp only at h
    cases hpi : processItems inp.type (initProc s) inp.items with
    | error e =>
      rw [hpi] at h
      exact absurd h (by simp)
    | ok st =>
      rw [hpi] at h
      dsimp only at h
      by_cases hneg : inp.paidAmount - st.totalAmount < 0
      · rw [if_pos hneg] at h
        exact absurd h (by simp)
      · rw [if_neg hneg] at h
        simp only [Except.ok.injEq, Prod.mk.injEq] at h
        obtain ⟨hs', htid2⟩ := h
        subst hs'
        exact ⟨by simp [tableOk, htid], st, rfl, hneg, htid2.symm, rfl, rfl, rfl,
          rfl, rfl⟩
  · rw [htid] at h
    dsimp only at h
    cases htb : findk s.tables tid' with
    | none =>
      rw [htb] at h
      exact absurd h (by simp)
    | some t =>
      rw [htb] at h
      dsimp only at h
      by_cases hact : t.isActive = false
      · rw [if_pos hact] at h
        exact absurd h (by simp)
      · rw [if_neg hact] at h
        dsimp only at h
        cases hpi : processItems inp.type (initProc s) inp.items with
        | error e =>
          rw [hpi] at h
          exact absurd h (by simp)
        | ok st =>
          rw [hpi] at h
          dsimp only at h
          by_cases hneg : inp.paidAmount - st.totalAmount < 0
          · rw [if_pos hneg] at h
            exact absurd h (by simp)
          · rw [if_neg hneg] at h
            simp only [Except.ok.injEq, Prod.mk.injEq] at h
            obtain ⟨hs', htid2⟩ := h
            subst hs'
            have hactT : t.isActive = true := by
              revert hact
              cases t.isActive <;> simp
            exact ⟨by simp only [tableOk, htid]; exact ⟨t, htb, hactT⟩, st, rfl,
              hneg, htid2.symm, rfl, rfl, rfl, rfl, rfl⟩

theorem initProc_products (s : DB) : (initProc s).products = s.products := rfl

theorem initProc_menus (s : DB) : (initProc s).menus = s.menus := rfl

/-- When the table pre-check passes, an item-loop error propagates as the
request's error. -/
theorem createTransaction_items_error {s : DB} {inp : CreateTxInput} {e : DomainError}
    (ht : tableOk s inp)
    (he : processItems inp.type (initProc s) inp.items = .error e) :
    createTransaction s inp = .error e := by
  simp only [createTransaction]
  rcases htid : inp.tableId with _ | tid'
  · dsimp only
    rw [he]
  · simp only [tableOk, htid] at ht
    obtain ⟨t, htb, hact⟩ := ht
    dsimp only
    rw [htb]
    dsimp only
    rw [if_neg (by simp [hact])]
    dsimp only
    rw [he]

/-- When the table pre-check and the item loop pass but the payment falls
short of the total, the request fails with the insufficient-payment error. -/
theorem createTransaction_pay_error {s : DB} {inp : CreateTxInput} {st : ProcState}
    (ht : tableOk s inp)
    (hpi : processItems inp.type (initProc s) inp.items = .ok st)
    (hneg : inp.paidAmount - st.totalAmount < 0) :
    createTransaction s inp = .error .insufficientPayment := by
  simp only [createTransaction]
  rcases htid : inp.tableId with _ | tid'
  · dsimp only
    rw [hpi]
    dsimp only
    rw [if_pos hneg]
  · simp only [tableOk, htid] at ht
    obtain ⟨t, htb, hact⟩ := ht
    dsimp only
    rw [htb]
    dsimp only
    rw [if_neg (by simp [hact])]
    dsimp only
    rw [hpi]
    dsimp only
    rw [if_pos hneg]

theorem prodQty_eq_zero {k : Nat} {items : List ItemInput}
    (h : ∀ j ∈ items, ¬(j.itemType = .PRODUCT ∧ j.id = k)) :
    prodQty k items = 0 := by
  induction items with
  | nil => rfl
  | cons j rest ih =>
    rw [show prodQty k (j :: rest)
        = (if j.itemType = .PRODUCT ∧ j.id = k then (j.quantity : Int) else 0)
          + prodQty k rest from rfl]
    rw [if_neg (h j (List.mem_cons_self j rest)),
      ih (fun j' hj' => h j' (List.mem_cons_of_mem j hj'))]
    ring

theorem menuQty_eq_zero {k : Nat} {items : List ItemInput}
    (h : ∀ j ∈ items, ¬(j.itemType = .MENU ∧ j.id = k)) :
    menuQty k items = 0 := by
  induction items with
  | nil => rfl
  | cons j rest ih =>
    rw [show menuQty k (j :: rest)
        = (if j.itemType = .MENU ∧ j.id = k then (j.quantity : Int) else 0)
          + menuQty k rest from rfl]
    rw [if_neg (h j (List.mem_cons_self j rest)),
      ih (fun j' hj' => h j' (List.mem_cons_of_mem j hj'))]
    ring

/-- With pairwise-distinct item keys, a PRODUCT item's own key is charged
exactly its quantity. -/
theorem prodQty_of_nodup {items : List ItemInput} {i : ItemInput}
    (hnd : (items.map pairOf).Nodup) (hi : i ∈ items)
    (hit : i.itemType = .PRODUCT) : prodQty i.id items = (i.quantity : Int) := by
  induction items with
  | nil => exact absurd hi (by simp)
  | cons j rest ih =>
    rw [List.map_cons, List.nodup_cons] at hnd
    obtain ⟨hhead, htail⟩ := hnd
    rcases List.mem_cons.mp hi with rfl | hir
    · rw [show prodQty i.id (i :: rest)
          = (if i.itemType = .PRODUCT ∧ i.id = i.id then (i.quantity : Int) else 0)
            + prodQty i.id rest from rfl]
      rw [if_pos ⟨hit, rfl⟩, prodQty_eq_zero (fun j' hj' hc => ?_)]
      · ring
      · exact hhead (by
          rw [show pairOf i = pairOf j' from by simp [pairOf, hit, hc.1, hc.2]]
          exact List.mem_map_of_mem pairOf hj')
    · rw [show prodQty i.id (j :: rest)
          = (if j.itemType = .PRODUCT ∧ j.id = i.id then (j.quantity : Int) else 0)
            + prodQty i.id rest from rfl]
      rw [if_neg (fun hc => hhead (by
        rw [show pairOf j = pairOf i from by simp [pairOf, hit, hc.1, hc.2]]
        exact List.mem_map_of_mem pairOf hir)), ih htail hir]
      ring

/-- With pairwise-distinct item keys, a MENU item's own key is charged
exactly its quantity. -/
theorem menuQty_of_nodup {items : List ItemInput} {i : ItemInput}
    (hnd : (items.map pairOf).Nodup) (hi : i ∈ items)
    (hit : i.itemType = .MENU) : menuQty i.id items = (i.quantity : Int) := by
  induction items with
  | nil => exact absurd hi (by simp)
  | cons j rest ih =>
    rw [List.map_cons, List.nodup_cons] at hnd
    obtain ⟨hhead, htail⟩ := hnd
    rcases List.mem_cons.mp hi with rfl | hir
    · rw [show menuQty i.id (i :: rest)
          = (if i.itemType = .MENU ∧ i.id = i.id then (i.quantity : Int) else 0)
            + menuQty i.id rest from rfl]
      rw [if_pos ⟨hit, rfl⟩, menuQty_eq_zero (fun j' hj' hc => ?_)]
      · ring
      · exact hhead (by
          rw [show pairOf i = pairOf j' from by simp [pairOf, hit, hc.1, hc.2]]
          exact List.mem_map_of_mem pairOf hj')
    · rw [show menuQty i.id (j :: rest)
          = (if j.itemType = .MENU ∧ j.id = i.id then (j.quantity : Int) else 0)
            + menuQty i.id rest from rfl]
      rw [if_neg (fun hc => hhead (by
        rw [show pairOf j = pairOf i from by simp [pairOf, hit, hc.1, hc.2]]
        exact List.mem_map_of_mem pairOf hir)), ih htail hir]
      ring

/-! ## Claim theorems -/

/-- C1: in every `createTransaction` call, a PRODUCT item of catalog type
SELL, every item of a RENTAL-type transaction, and every MENU item with
non-null stock must satisfy `stock ≥ quantity` — on success such an item's
stock is decremented by its quantity, a MENU item with null stock is never
stock-constrained, and when some stock-checked item is short the call
fails with an insufficient-stock error naming the item and its available
quantity. -/
theorem createTransaction_stock_rule (s : DB) (inp : CreateTxInput) :
    (∀ s' tid, createTransaction s inp = .ok (s', tid) →
      (inp.items.map pairOf).Nodup →
      ∀ i ∈ inp.items,
        (i.itemType = .PRODUCT → ∃ p, findk s.products i.id = some p ∧
          p.isActive = true ∧
          ((p.type = .SELL ∨ inp.type = .RENTAL) →
            (i.quantity : Int) ≤ p.stock ∧
            findk s'.products i.id
              = some { p with stock := p.stock - (i.quantity : Int) }) ∧
          (¬(p.type = .SELL ∨ inp.type = .RENTAL) →
            findk s'.products i.id = some p)) ∧
        (i.itemType = .MENU → ∃ m, findk s.menus i.id = some m ∧
          m.isActive = true ∧
          (∀ n, m.stock = some n → (i.quantity : Int) ≤ n ∧
            findk s'.menus i.id
              = some { m with stock := some (n - (i.quantity : Int)) }) ∧
          (m.stock = none → findk s'.menus i.id = some m))) ∧
    ((inp.items.map pairOf).Nodup → tableOk s inp →
      (∀ i ∈ inp.items, foundActive s.products s.menus i) →
      (∃ i ∈ inp.items, underAt s.products s.menus inp.type i) →
      ∃ i ∈ inp.items,
        ((i.itemType = .PRODUCT ∧ ∃ p, findk s.products i.id = some p ∧
            p.stock < (i.quantity : Int) ∧
            createTransaction s inp = .error (.insufficientStock p.name p.stock)) ∨
         (i.itemType = .MENU ∧ ∃ m n, findk s.menus i.id = some m ∧
            m.stock = some n ∧ n < (i.quantity : Int) ∧
            createTransaction s inp = .error (.insufficientStock m.name n)))) := by
  constructor
  · intro s' tid h hnd i hi
    obtain ⟨ht, st, hpi, hneg, htid, hprod, hmenu, htxns, htbl, hnid⟩ :=
      createTransaction_ok h
    obtain ⟨hfa, hso⟩ := processItems_itemOk hpi hnd i hi
    constructor
    · intro hit
      obtain ⟨p, hp, hact⟩ := hfa.1 hit
      rw [initProc_products] at hp
      refine ⟨p, hp, hact, fun hcond => ?_, fun hncond => ?_⟩
      · refine ⟨hso.1 hit p hp hcond, ?_⟩
        rw [hprod, processItems_products hpi i.id,
          initProc_products, hp]
        simp only [Option.map_some', prodDelta]
        rw [if_pos hcond, prodQty_of_nodup hnd hi hit]
        simp [prodShift, sub_eq_add_neg]
      · rw [hprod, processItems_products hpi i.id, initProc_products, hp]
        simp only [Option.map_some', prodDelta]
        rw [if_neg hncond]
        simp [prodShift_zero]
    · intro hit
      obtain ⟨m, hm, hact⟩ := hfa.2 hit
      rw [initProc_menus] at hm
      refine ⟨m, hm, hact, fun n hn => ?_, fun hn => ?_⟩
      · refine ⟨hso.2 hit m n hm hn, ?_⟩
        rw [hmenu, processItems_menus hpi i.id, initProc_menus, hm]
        simp only [Option.map_some']
        rw [menuQty_of_nodup hnd hi hit]
        cases m with
        | mk name price stock isActive =>
          simp only at hn
          subst hn
          simp [menuShift, sub_eq_add_neg]
      · rw [hmenu, processItems_menus hpi i.id, initProc_menus, hm]
        simp only [Option.map_some']
        cases m with
        | mk name price stock isActive =>
          simp only at hn
          subst hn
          simp [menuShift]
  · intro hnd ht hfa hex
    obtain ⟨i, hi, hcase⟩ :=
      @processItems_under_fails _ _ (initProc s) hnd hfa hex
    refine ⟨i, hi, ?_⟩
    rcases hcase with ⟨hit, p, hp, hlt, herr⟩ | ⟨hit, m, n, hm, hn, hlt, herr⟩
    · exact Or.inl ⟨hit, p, hp, hlt, createTransaction_items_error ht herr⟩
    · exact Or.inr ⟨hit, m, n, hm, hn, hlt, createTransaction_items_error ht herr⟩

/-- C1 witness: selling 2 of the 5-stock Ball leaves stock 3, and selling
9 fails with the insufficient-stock error naming the Ball and its stock. -/
theorem createTransaction_stock_rule_witness :
    findk (afterCreateTx exDB posInput).products 1 = some { pBall with stock := 3 } ∧
    createTransaction exDB underStockInput
      = .error (.insufficientStock "Ball" 5) := by
  constructor
  · have hok : createTransaction exDB posInput
        = .ok (afterCreateTx exDB posInput, 100) := by with_unfolding_all rfl
    have h := (createTransaction_stock_rule exDB posInput).1
      (afterCreateTx exDB posInput) 100 hok (by decide)
      { itemType := .PRODUCT, id := 1, quantity := 2, notes := none } (by decide)
    obtain ⟨h1, _⟩ := h
    obtain ⟨p, hp, hact, hchk, _⟩ := h1 rfl
    have h0 : findk exDB.products 1 = some pBall := by with_unfolding_all rfl
    dsimp only at hp
    rw [h0] at hp
    have hpB : p = pBall := (Option.some.inj hp).symm
    subst hpB
    rw [(hchk (Or.inl rfl)).2]
    with_unfolding_all rfl
  · have h := (createTransaction_stock_rule exDB underStockInput).2
      (by decide) (by simp [tableOk, underStockInput])
      (by
        intro i hi
        have hi' : i = (⟨.PRODUCT, 1, 9, none⟩ : ItemInput) := by
          simpa [underStockInput] using hi
        subst hi'
        exact ⟨fun _ => ⟨pBall, by with_unfolding_all rfl, rfl⟩, fun hc => absurd hc (by decide)⟩)
      ⟨(⟨.PRODUCT, 1, 9, none⟩ : ItemInput), by decide,
        Or.inl ⟨rfl, pBall, by with_unfolding_all rfl, Or.inl rfl, by decide⟩⟩
    obtain ⟨i, hi, hcase⟩ := h
    have hi' : i = (⟨.PRODUCT, 1, 9, none⟩ : ItemInput) := by
      simpa [underStockInput] using hi
    subst hi'
    rcases hcase with ⟨hit, p, hp, hlt, herr⟩ | ⟨hit, m, n, hm, hn, hlt, herr⟩
    · have h0 : findk exDB.products 1 = some pBall := by with_unfolding_all rfl
      dsimp only at hp
      rw [h0] at hp
      have hpB : p = pBall := (Option.some.inj hp).symm
      subst hpB
      exact herr
    · exact absurd hit (by decide)

/-- C3: a failing `createTransaction` call (item or table missing,
inactive item, insufficient stock, insufficient payment — any error)
leaves the store exactly as it was: no stock change, no transaction row,
and no table occupation is observable. -/
theorem createTransaction_error_rollback (s : DB) (inp : CreateTxInput)
    (e : DomainError) (h : createTransaction s inp = .error e) :
    afterCreateTx s inp = s ∧
    (afterCreateTx s inp).products = s.products ∧
    (afterCreateTx s inp).menus = s.menus ∧
    (afterCreateTx s inp).transactions = s.transactions ∧
    (afterCreateTx s inp).tables = s.tables := by
  simp [afterCreateTx, h]

/-- C3 witness: paying 1 against a 20 total is rejected and the sample
store is untouched. -/
theorem createTransaction_error_rollback_witness :
    afterCreateTx exDB lowPayInput = exDB ∧
    createTransaction exDB lowPayInput = .error .insufficientPayment := by
  have herr : createTransaction exDB lowPayInput
      = .error .insufficientPayment := by with_unfolding_all rfl
  exact ⟨(createTransaction_error_rollback exDB lowPayInput _ herr).1, herr⟩

/-- C4: a successful `createTransaction` records `totalAmount` equal to
the sum of its items' subtotals, each subtotal being the catalog unit
price at the moment of sale times the quantity, and `changeAmount =
paidAmount − totalAmount ≥ 0`; when the payment falls short the call
fails with the insufficient-payment domain error. -/
theorem createTransaction_totals (s : DB) (inp : CreateTxInput) :
    (∀ s' tid, createTransaction s inp = .ok (s', tid) →
      findk s.transactions s.nextId = none →
      ∃ txn, findk s'.transactions tid = some txn ∧
        txn.totalAmount = sumSub txn.items ∧
        txn.changeAmount = inp.paidAmount - txn.totalAmount ∧
        0 ≤ txn.changeAmount ∧
        ∀ it ∈ txn.items, it.subtotal = it.unitPrice * (it.quantity : Rat) ∧
          (it.itemType = .PRODUCT → ∃ pid p, it.productId = some pid ∧
            findk s.products pid = some p ∧ it.unitPrice = p.price) ∧
          (it.itemType = .MENU → ∃ mid m, it.menuId = some mid ∧
            findk s.menus mid = some m ∧ it.unitPrice = m.price)) ∧
    (∀ st, tableOk s inp →
      processItems inp.type (initProc s) inp.items = .ok st →
      inp.paidAmount - st.totalAmount < 0 →
      createTransaction s inp = .error .insufficientPayment) := by
  constructor
  · intro s' tid h hfresh
    obtain ⟨ht, st, hpi, hneg, htid, hprod, hmenu, htxns, htbl, hnid⟩ :=
      createTransaction_ok h
    subst htid
    refine ⟨
      { invoiceNumber := s.transactions.length + 1
        type := inp.type
        tableId := inp.tableId
        customerName := inp.customerName
        totalAmount := st.totalAmount
        paidAmount := inp.paidAmount
        changeAmount := inp.paidAmount - st.totalAmount
        status := .PAID
        items := st.processedItems
        sellRecords := st.sellItems
        rentRecords := st.rentItems }, ?_, ?_, ?_, ?_, ?_⟩
    · rw [htxns, findk_append_of_none _ hfresh]
      simp [findk]
    · have htot := processItems_total hpi
      rw [show (initProc s).totalAmount - sumSub (initProc s).processedItems
          = 0 from by simp [initProc, sumSub]] at htot
      dsimp only
      exact sub_eq_zero.mp htot
    · rfl
    · dsimp only
      exact le_of_not_lt hneg
    · intro it hit
      dsimp only at hit
      have hspec := processItems_itemSpec hpi
        (by intro it' hit'; exact absurd hit' (by simp [initProc])) it hit
      obtain ⟨h0, h1, h2⟩ := hspec
      refine ⟨h0, fun hj => ?_, fun hj => ?_⟩
      · obtain ⟨pid, p, hid, hp, hpr⟩ := h1 hj
        rw [initProc_products] at hp
        exact ⟨pid, p, hid, hp, hpr⟩
      · obtain ⟨mid, m, hid, hm, hpr⟩ := h2 hj
        rw [initProc_menus] at hm
        exact ⟨mid, m, hid, hm, hpr⟩
  · intro st ht hpi hneg
    exact createTransaction_pay_error ht hpi hneg

/-- C4 witness: the sample sale commits a transaction row (total 20, paid
50, change 30), and the underpaid sample request is rejected with the
insufficient-payment error. -/
theorem createTransaction_totals_witness :
    (findk (afterCreateTx exDB posInput).transactions 100).isSome = true ∧
    createTransaction exDB lowPayInput = .error .insufficientPayment := by
  constructor
  · have hok : createTransaction exDB posInput
        = .ok (afterCreateTx exDB posInput, 100) := by with_unfolding_all rfl
    obtain ⟨txn, htxn, _⟩ := (createTransaction_totals exDB posInput).1
      (afterCreateTx exDB posInput) 100 hok (by with_unfolding_all rfl)
    rw [htxn]
    rfl
  · have ht : tableOk exDB lowPayInput := by simp [tableOk, lowPayInput]
    have h20 : (match processItems lowPayInput.type (initProc exDB)
        lowPayInput.items with
      | .ok st => st.totalAmount
      | .error _ => 0) = 20 := by with_unfolding_all rfl
    rcases hpi : processItems lowPayInput.type (initProc exDB) lowPayInput.items
      with e | st
    · rw [hpi] at h20
      dsimp only at h20
      exact absurd h20 (by norm_num)
    · rw [hpi] at h20
      dsimp only at h20
      refine (createTransaction_totals exDB lowPayInput).2 st ht hpi ?_
      rw [h20, show lowPayInput.paidAmount = 1 from rfl]
      norm_num

/-- Restoration effect of one `cancelTransaction` loop item on the
products table. -/
theorem restoreStep_products (ps : List (Nat × Product)) (ms : List (Nat × Menu))
    (it : TransactionItem) (k : Nat) :
    findk (restoreStep ps ms it).1 k = (findk ps k).map (prodShift
      (if it.itemType = .PRODUCT ∧ it.productId = some k
        then (it.quantity : Int) else 0)) := by
  cases hit : it.itemType with
  | BOOKING =>
    simp only [restoreStep, hit]
    cases ho : findk ps k <;> simp [ho, prodShift_zero]
  | MENU =>
    simp only [restoreStep, hit]
    cases hmid : it.menuId with
    | none =>
      dsimp only
      cases ho : findk ps k <;> simp [ho, prodShift_zero]
    | some mid =>
      dsimp only
      cases hm : findk ms mid with
      | none =>
        dsimp only
        cases ho : findk ps k <;> simp [ho, prodShift_zero]
      | some menu =>
        dsimp only
        cases hs : menu.stock with
        | none =>
          dsimp only
          cases ho : findk ps k <;> simp [ho, prodShift_zero]
        | some n =>
          dsimp only
          cases ho : findk ps k <;> simp [ho, prodShift_zero]
  | PRODUCT =>
    simp only [restoreStep, hit]
    cases hpid : it.productId with
    | none =>
      dsimp only
      cases ho : findk ps k <;> simp [ho, prodShift_zero]
    | some pid =>
      dsimp only
      cases hp : findk ps pid with
      | none =>
        dsimp only
        by_cases hk : pid = k
        · subst hk
          rw [hp]
          rfl
        · cases ho : findk ps k <;>
            simp [ho, hk, prodShift_zero]
      | some product =>
        dsimp only
        by_cases hk : pid = k
        · subst hk
          rw [findk_updk_self, hp]
          simp [prodShift]
        · rw [findk_updk_ne _ _ _ _ (fun hc => hk hc.symm)]
          cases ho : findk ps k <;>
            simp [ho, hk, prodShift_zero]

/-- Restoration effect of one `cancelTransaction` loop item on the menus
table. -/
theorem restoreStep_menus (ps : List (Nat × Product)) (ms : List (Nat × Menu))
    (it : TransactionItem) (k : Nat) :
    findk (restoreStep ps ms it).2 k = (findk ms k).map (menuShift
      (if it.itemType = .MENU ∧ it.menuId = some k
        then (it.quantity : Int) else 0)) := by
  cases hit : it.itemType with
  | BOOKING =>
    simp only [restoreStep, hit]
    cases ho : findk ms k <;> simp [ho, menuShift_zero]
  | PRODUCT =>
    simp only [restoreStep, hit]
    cases hpid : it.productId with
    | none =>
      dsimp only
      cases ho : findk ms k <;> simp [ho, menuShift_zero]
    | some pid =>
      dsimp only
      cases hp : findk ps pid with
      | none =>
        dsimp only
        cases ho : findk ms k <;> simp [ho, menuShift_zero]
      | some product =>
        dsimp only
        cases ho : findk ms k <;> simp [ho, menuShift_zero]
  | MENU =>
    simp only [restoreStep, hit]
    cases hmid : it.menuId with
    | none =>
      dsimp only
      cases ho : findk ms k <;> simp [ho, menuShift_zero]
    | some mid =>
      dsimp only
      cases hm : findk ms mid with
      | none =>
        dsimp only
        by_cases hk : mid = k
        · subst hk
          rw [hm]
          rfl
        · cases ho : findk ms k <;>
            simp [ho, hk, menuShift_zero]
      | some menu =>
        dsimp only
        cases hs : menu.stock with
        | none =>
          dsimp only
          by_cases hk : mid = k
          · subst hk
            rw [hm]
            cases menu with
            | mk name price stock isActive =>
              simp only at hs
              subst hs
              simp [menuShift]
          · cases ho : findk ms k <;>
              simp [ho, hk, menuShift_zero]
        | some n =>
          dsimp only
          by_cases hk : mid = k
          · subst hk
            rw [findk_updk_self, hm]
            cases menu with
            | mk name price stock isActive =>
              simp only at hs
              subst hs
              simp [menuShift]
          · rw [findk_updk_ne _ _ _ _ (fun hc => hk hc.symm)]
            cases ho : findk ms k <;>
              simp [ho, hk, menuShift_zero]

/-- Net effect of `cancelTransaction`'s restoration loop: every product is
restored by the full PRODUCT quantity of the transaction's items, every
tracked menu by the full MENU quantity. -/
theorem restoreFold {L : List TransactionItem} :
    ∀ (ps : List (Nat × Product)) (ms : List (Nat × Menu)) (k : Nat),
    findk (L.foldl (fun pm it => restoreStep pm.1 pm.2 it) (ps, ms)).1 k
      = (findk ps k).map (prodShift (prodQtyT k L)) ∧
    findk (L.foldl (fun pm it => restoreStep pm.1 pm.2 it) (ps, ms)).2 k
      = (findk ms k).map (menuShift (menuQtyT k L)) := by
  induction L with
  | nil =>
    intro ps ms k
    constructor
    · cases ho : findk ps k <;> simp [ho, prodQtyT, prodShift_zero]
    · cases ho : findk ms k <;> simp [ho, menuQtyT, menuShift_zero]
  | cons it rest ih =>
    intro ps ms k
    rw [show (it :: rest).foldl (fun pm it => restoreStep pm.1 pm.2 it) (ps, ms)
        = rest.foldl (fun pm it => restoreStep pm.1 pm.2 it)
            (restoreStep ps ms it) from rfl]
    rw [show restoreStep ps ms it
        = ((restoreStep ps ms it).1, (restoreStep ps ms it).2) from rfl]
    obtain ⟨ihp, ihm⟩ := ih (restoreStep ps ms it).1 (restoreStep ps ms it).2 k
    constructor
    · rw [ihp, restoreStep_products ps ms it k]
      rw [show prodQtyT k (it :: rest)
          = (if it.itemType = .PRODUCT ∧ it.productId = some k
              then (it.quantity : Int) else 0) + prodQtyT k rest from rfl]
      cases ho : findk ps k with
      | none => rfl
      | some p => simp [prodShift_comp]
    · rw [ihm, restoreStep_menus ps ms it k]
      rw [show menuQtyT k (it :: rest)
          = (if it.itemType = .MENU ∧ it.menuId = some k
              then (it.quantity : Int) else 0) + menuQtyT k rest from rfl]
      cases ho : findk ms k with
      | none => rfl
      | some m => simp [menuShift_comp]

theorem findk_singleton {α : Type} (k : Nat) (v : α) :
    findk [(k, v)] k = some v := by simp [findk]

/-- Elimination form of a successful `cancelTransaction`: the transaction
existed, was not already CANCELLED, and every product and tracked menu got
its full per-item quantities restored. -/
theorem cancelTransaction_ok {s : DB} {id : Nat} {s'' : DB}
    (h : cancelTransaction s id = .ok s'') :
    ∃ txn, findk s.transactions id = some txn ∧ txn.status ≠ .CANCELLED ∧
      (∀ k, findk s''.products k
        = (findk s.products k).map (prodShift (prodQtyT k txn.items))) ∧
      (∀ k, findk s''.menus k
        = (findk s.menus k).map (menuShift (menuQtyT k txn.items))) := by
  simp only [cancelTransaction] at h
  cases htxn : findk s.transactions id with
  | none =>
    rw [htxn] at h
    exact absurd h (by simp)
  | some txn =>
    rw [htxn] at h
    dsimp only at h
    by_cases hst : txn.status = .CANCELLED
    · rw [if_pos hst] at h
      exact absurd h (by simp)
    · rw [if_neg hst] at h
      simp only [Except.ok.injEq] at h
      subst h
      refine ⟨txn, rfl, hst, fun k => ?_, fun k => ?_⟩
      · exact (restoreFold s.products s.menus k).1
      · exact (restoreFold s.products s.menus k).2

/-- Elimination form of a successful `payTransaction`: only the
transaction row changes; catalog stocks are untouched. -/
theorem payTransaction_ok {s : DB} {id : Nat} {amt : Rat} {s' : DB}
    (h : payTransaction s id amt = .ok s') :
    s'.products = s.products ∧ s'.menus = s.menus := by
  simp only [payTransaction] at h
  cases htxn : findk s.transactions id with
  | none =>
    rw [htxn] at h
    exact absurd h (by simp)
  | some txn =>
    rw [htxn] at h
    dsimp only at h
    by_cases h1 : txn.status = .PAID
    · rw [if_pos h1] at h
      exact absurd h (by simp)
    · rw [if_neg h1] at h
      by_cases h2 : txn.status = .CANCELLED
      · rw [if_pos h2] at h
        exact absurd h (by simp)
      · rw [if_neg h2] at h
        by_cases h3 : amt - txn.totalAmount < 0
        · rw [if_pos h3] at h
          exact absurd h (by simp)
        · rw [if_neg h3] at h
          simp only [Except.ok.injEq] at h
          subst h
          exact ⟨rfl, rfl⟩

/-- C5 counterexample: the claim fails as stated.  A RENTAL sale of 2
Rackets (stock 5 → 3) followed by `completeTransaction` (stock back to 5)
still admits `cancelTransaction` — the transaction is COMPLETED, not
CANCELLED — which restores the stock again, ending at 7 ≠ 5.  Likewise a
POS sale of the RENT-type Racket never decrements stock, yet cancelling it
restores 2, also ending at 7 ≠ 5. -/
theorem cancelTransaction_restore_counterexample :
    createTransaction exDB rentalInput = .ok (c5s1, 100) ∧
    completeTransaction c5s1 100 = .ok c5s2 ∧
    cancelTransaction c5s2 100 = .ok c5s3 ∧
    findk exDB.products 2 = some pRacket ∧
    pRacket.stock = 5 ∧
    findk c5s3.products 2 = some { pRacket with stock := 7 } ∧
    createTransaction exDB posRentInput = .ok (c5t1, 100) ∧
    cancelTransaction c5t1 100 = .ok c5t2 ∧
    findk c5t2.products 2 = some { pRacket with stock := 7 } := by
  with_unfolding_all exact ⟨rfl, rfl, rfl, rfl, rfl, rfl, rfl, rfl, rfl⟩

/-- C5 (amended): cancelling a transaction straight after its creation —
with any number of intervening `payTransaction` calls, which never touch
catalog stock — restores the stock of every SELL-type product, of every
product in a RENTAL transaction, and of every menu, to exactly its value
before the transaction was created.  (After `completeTransaction`, or for
a RENT-type product in a POS transaction, cancellation over-restores; see
the counterexample.) -/
theorem cancelTransaction_restores_stock (s : DB) (inp : CreateTxInput) :
    (∀ s' tid s'', createTransaction s inp = .ok (s', tid) →
      findk s.transactions s.nextId = none →
      cancelTransaction s' tid = .ok s'' →
      (∀ k p, findk s.products k = some p →
        (p.type = .SELL ∨ inp.type = .RENTAL) → findk s''.products k = some p) ∧
      (∀ k m, findk s.menus k = some m → findk s''.menus k = some m)) ∧
    (∀ s₀ id amt s₁, payTransaction s₀ id amt = .ok s₁ →
      s₁.products = s₀.products ∧ s₁.menus = s₀.menus) := by
  constructor
  · intro s' tid s'' hcr hfresh hca
    obtain ⟨ht, st, hpi, hneg, htid, hprod, hmenu, htxns, htbl, hnid⟩ :=
      createTransaction_ok hcr
    subst htid
    obtain ⟨txn, htxn, hst, hP, hM⟩ := cancelTransaction_ok hca
    rw [htxns, findk_append_of_none _ hfresh, findk_singleton] at htxn
    obtain rfl := (Option.some.inj htxn).symm
    constructor
    · intro k p hp hcond
      have hq := (processItems_qtyT hpi k).1
      rw [show prodQtyT k (initProc s).processedItems = 0 from rfl,
        zero_add] at hq
      rw [hP k, hprod, processItems_products hpi k, initProc_products, hp]
      simp only [Option.map_some', hq, prodDelta]
      rw [if_pos hcond, prodShift_comp]
      simp [prodShift_zero]
    · intro k m hm
      have hq := (processItems_qtyT hpi k).2
      rw [show menuQtyT k (initProc s).processedItems = 0 from rfl,
        zero_add] at hq
      rw [hM k, hmenu, processItems_menus hpi k, initProc_menus, hm]
      simp only [Option.map_some', hq]
      rw [menuShift_comp]
      simp [menuShift_zero]
  · intro s₀ id amt s₁ h
    exact payTransaction_ok h

/-- C5 (amended) witness: selling then cancelling 2 Balls returns the
Ball row to exactly its original record, and a `payTransaction` on a
pending booking-backed transaction leaves catalog stocks untouched. -/
theorem cancelTransaction_restores_stock_witness :
    findk (afterCancelTx (afterCreateTx exDB posInput) 100).products 1
      = some pBall ∧
    (afterPayTx (afterCreateBk exDB bkInput2) 100 500).products
      = (afterCreateBk exDB bkInput2).products := by
  constructor
  · have h := ((cancelTransaction_restores_stock exDB posInput).1
      (afterCreateTx exDB posInput) 100
      (afterCancelTx (afterCreateTx exDB posInput) 100)
      (by with_unfolding_all rfl) (by with_unfolding_all rfl)
      (by with_unfolding_all rfl)).1
    exact h 1 pBall (by with_unfolding_all rfl) (Or.inl rfl)
  · exact ((cancelTransaction_restores_stock exDB posInput).2
      (afterCreateBk exDB bkInput2) 100 500
      (afterPayTx (afterCreateBk exDB bkInput2) 100 500)
      (by with_unfolding_all rfl)).1

/-- Elimination form of a successful `createBooking`: the court existed
and was ACTIVE, no non-cancelled reservation on it overlapped the
half-open window, and the committed store appends the backing BOOKING
transaction and the booking row with the derived statuses. -/
theorem createBooking_ok {s : DB} {inp : BookingInput} {s' : DB} {bid tid : Nat}
    (h : createBooking s inp = .ok (s', bid, tid)) :
    ∃ court, findk s.courts inp.courtId = some court ∧
      court.status = .ACTIVE ∧
      s.bookings.any (fun p =>
        overlapsNew p.2 inp.courtId inp.startTime inp.endTime) = false ∧
      bid = s.nextId + 1 ∧ tid = s.nextId ∧
      s'.transactions = s.transactions ++ [(s.nextId,
        { invoiceNumber := s.transactions.length + 1
          type := .BOOKING
          tableId := none
          customerName := some inp.customerName
          totalAmount := ((inp.endTime - inp.startTime : Int) : Rat) / 3600000
            * court.pricePerHour
          paidAmount := inp.paidAmount
          changeAmount := max 0 (inp.paidAmount
            - ((inp.endTime - inp.startTime : Int) : Rat) / 3600000
              * court.pricePerHour)
          status := if inp.paidAmount ≥ ((inp.endTime - inp.startTime : Int) : Rat)
              / 3600000 * court.pricePerHour then .PAID else .PENDING
          items :=
            [{ itemType := .BOOKING, productId := none, menuId := none,
               quantity := 1,
               unitPrice := ((inp.endTime - inp.startTime : Int) : Rat) / 3600000
                 * court.pricePerHour,
               subtotal := ((inp.endTime - inp.startTime : Int) : Rat) / 3600000
                 * court.pricePerHour,
               notes := some ("Court Booking: " ++ court.name) }]
          sellRecords := []
          rentRecords := [] })] ∧
      s'.bookings = s.bookings ++ [(s.nextId + 1,
        { courtId := inp.courtId
          startTime := inp.startTime
          endTime := inp.endTime
          durationHours := ((inp.endTime - inp.startTime : Int) : Rat) / 3600000
          pricePerHour := court.pricePerHour
          totalPrice := ((inp.endTime - inp.startTime : Int) : Rat) / 3600000
            * court.pricePerHour
          paymentStatus :=
            if inp.paidAmount ≥ ((inp.endTime - inp.startTime : Int) : Rat)
                / 3600000 * court.pricePerHour then .PAID
            else if inp.paidAmount > 0 then .PARTIAL
            else inp.paymentStatus
          bookingStatus :=
            if inp.paidAmount ≥ ((inp.endTime - inp.startTime : Int) : Rat)
                / 3600000 * court.pricePerHour then .CONFIRMED else .PENDING
          transactionId := some s.nextId })] ∧
      s'.nextId = s.nextId + 2 := by
  simp only [createBooking] at h
  cases hc : findk s.courts inp.courtId with
  | none =>
    rw [hc] at h
    exact absurd h (by simp)
  | some court =>
    rw [hc] at h
    dsimp only at h
    by_cases hst : court.status ≠ .ACTIVE
    · rw [if_pos hst] at h
      exact absurd h (by simp)
    · rw [if_neg hst] at h
      by_cases hov : s.bookings.any (fun p =>
          overlapsNew p.2 inp.courtId inp.startTime inp.endTime) = true
      · rw [if_pos hov] at h
        exact absurd h (by simp)
      · rw [if_neg hov] at h
        simp only [Except.ok.injEq, Prod.mk.injEq] at h
        obtain ⟨hs', hbid, htid⟩ := h
        subst hs'
        exact ⟨court, rfl, not_not.mp (fun hc2 => hst hc2), by
            revert hov
            cases s.bookings.any (fun p =>
              overlapsNew p.2 inp.courtId inp.startTime inp.endTime) <;> simp,
          hbid.symm, htid.symm, rfl, rfl, rfl⟩

/-- C2: for courts that exist and are ACTIVE, `createBooking` rejects with
Conflict exactly when some existing booking on the same court with status
≠ CANCELLED satisfies `existing.startTime < newEnd ∧ existing.endTime >
newStart` — so touching endpoints never conflict — and consequently no
sequence of `createBooking` calls starting from a store satisfying the
no-overlap invariant (in particular the empty store) can produce two
overlapping non-cancelled bookings on one court. -/
theorem createBooking_overlap_rule (s : DB) (inp : BookingInput) :
    (∀ court, findk s.courts inp.courtId = some court →
      court.status = .ACTIVE →
      (createBooking s inp = .error .timeSlotBooked ↔
        ∃ pr ∈ s.bookings, pr.2.courtId = inp.courtId ∧
          pr.2.bookingStatus ≠ .CANCELLED ∧
          pr.2.startTime < inp.endTime ∧ pr.2.endTime > inp.startTime)) ∧
    (∀ s' bid tid, createBooking s inp = .ok (s', bid, tid) →
      NoOverlap s.bookings → NoOverlap s'.bookings) ∧
    NoOverlap ([] : List (Nat × Booking)) := by
  refine ⟨?_, ?_, List.Pairwise.nil⟩
  · intro court hcourt hact
    simp only [createBooking, hcourt]
    rw [if_neg (by simp [hact])]
    by_cases hov : s.bookings.any (fun p =>
        overlapsNew p.2 inp.courtId inp.startTime inp.endTime) = true
    · rw [if_pos hov]
      simp only [List.any_eq_true, overlapsNew, decide_eq_true_eq] at hov
      obtain ⟨pr, hpr, h1, h2, h3, h4⟩ := hov
      exact ⟨fun _ => ⟨pr, hpr, h1, h2, h3, h4⟩, fun _ => rfl⟩
    · rw [if_neg hov]
      constructor
      · intro hc
        exact absurd hc (by simp)
      · intro hex
        exact absurd (by
          simp only [List.any_eq_true, overlapsNew, decide_eq_true_eq]
          obtain ⟨pr, hpr, h1, h2, h3, h4⟩ := hex
          exact ⟨pr, hpr, h1, h2, h3, h4⟩) hov
  · intro s' bid tid h hinv
    obtain ⟨court, hcourt, hact, hov, hbid, htid, htxns, hbks, hnid⟩ :=
      createBooking_ok h
    simp only [NoOverlap] at hinv ⊢
    rw [hbks, List.pairwise_append]
    refine ⟨hinv, List.pairwise_singleton _ _, ?_⟩
    intro x hx y hy hcourtEq hxnc hync
    rw [List.mem_singleton.mp hy]
    rw [List.mem_singleton.mp hy] at hcourtEq
    dsimp only at hcourtEq ⊢
    rw [List.any_eq_false] at hov
    have := hov x hx
    simp only [overlapsNew, decide_eq_true_eq] at this
    intro ⟨hlt, hgt⟩
    exact this ⟨hcourtEq, hxnc, hlt, hgt⟩

/-- C2 witness: on the sample store's ACTIVE court the two-hour booking is
accepted and preserves the (empty) no-overlap invariant, and a second
overlapping request is rejected with Conflict. -/
theorem createBooking_overlap_rule_witness :
    NoOverlap c10s1.bookings ∧
    createBooking c10s1 bkInput2 = .error .timeSlotBooked ∧
    c10s1.bookings ≠ [] := by
  have hok : createBooking exDB bkInput1 = .ok (c10s1, 101, 100) := by
    with_unfolding_all rfl
  have herr : createBooking c10s1 bkInput2 = .error .timeSlotBooked := by
    with_unfolding_all rfl
  refine ⟨?_, herr, ?_⟩
  · exact (createBooking_overlap_rule exDB bkInput1).2.1 c10s1 101 100 hok
      (by rw [show exDB.bookings = ([] : List (Nat × Booking)) from rfl]
          exact (createBooking_overlap_rule exDB bkInput1).2.2)
  · obtain ⟨pr, hpr, _⟩ := ((createBooking_overlap_rule c10s1 bkInput2).1
      exCourt (by with_unfolding_all rfl) rfl).mp herr
    intro hc
    rw [hc] at hpr
    exact absurd hpr (by simp)

/-- C8 counterexample: the claim's third branch fails as stated.  A
booking request with `paidAmount = 0` but caller-supplied `paymentStatus =
PAID` on a court priced 100/hour yields a booking whose `paymentStatus` is
PAID — not UNPAID as the claim requires — while `totalPrice` is 100,
`bookingStatus` is PENDING and the backing transaction is PENDING. -/
theorem createBooking_status_counterexample :
    createBooking exDB bkInputPaid0 = .ok (c8s, 101, 100) ∧
    bkInputPaid0.paidAmount = 0 ∧
    bkInputPaid0.paymentStatus = .PAID ∧
    (findk c8s.bookings 101).map (fun b => b.totalPrice) = some 100 ∧
    (findk c8s.bookings 101).map (fun b => b.paymentStatus)
      = some .PAID ∧
    (findk c8s.bookings 101).map (fun b => b.bookingStatus)
      = some .PENDING ∧
    (findk c8s.transactions 100).map (fun t => t.status)
      = some .PENDING := by
  with_unfolding_all exact ⟨rfl, rfl, rfl, rfl, rfl, rfl, rfl⟩

/-- C8 (amended): a successful `createBooking` records `durationHours =
(endTime − startTime)/3600000 ms` and `totalPrice = durationHours ×
pricePerHour`; if `paidAmount ≥ totalPrice` the booking is PAID/CONFIRMED
with a PAID backing transaction, else if `paidAmount > 0` it is
PARTIAL/PENDING with a PENDING transaction, and otherwise the booking
keeps the caller-supplied `paymentStatus` (UNPAID by default) with
bookingStatus PENDING and a PENDING transaction. -/
theorem createBooking_pricing (s : DB) (inp : BookingInput) :
    ∀ s' bid tid court bk txn, createBooking s inp = .ok (s', bid, tid) →
      findk s.courts inp.courtId = some court →
      findk s.bookings (s.nextId + 1) = none →
      findk s.transactions s.nextId = none →
      findk s'.bookings bid = some bk →
      findk s'.transactions tid = some txn →
      bk.durationHours = ((inp.endTime - inp.startTime : Int) : Rat) / 3600000 ∧
      bk.totalPrice = bk.durationHours * court.pricePerHour ∧
      txn.totalAmount = bk.totalPrice ∧
      bk.transactionId = some tid ∧
      (inp.paidAmount ≥ bk.totalPrice →
        bk.paymentStatus = .PAID ∧ bk.bookingStatus = .CONFIRMED ∧
        txn.status = .PAID) ∧
      (¬ inp.paidAmount ≥ bk.totalPrice → inp.paidAmount > 0 →
        bk.paymentStatus = .PARTIAL ∧ bk.bookingStatus = .PENDING ∧
        txn.status = .PENDING) ∧
      (¬ inp.paidAmount ≥ bk.totalPrice → ¬ inp.paidAmount > 0 →
        bk.paymentStatus = inp.paymentStatus ∧ bk.bookingStatus = .PENDING ∧
        txn.status = .PENDING) := by
  intro s' bid tid court bk txn h hcourt hfreshB hfreshT hB hT
  obtain ⟨court', hcourt', hact, hov, hbid, htid, htxns, hbks, hnid⟩ :=
    createBooking_ok h
  rw [hcourt] at hcourt'
  obtain rfl := (Option.some.inj hcourt').symm
  subst hbid
  subst htid
  rw [hbks, findk_append_of_none _ hfreshB, findk_singleton] at hB
  obtain rfl := (Option.some.inj hB).symm
  rw [htxns, findk_append_of_none _ hfreshT, findk_singleton] at hT
  obtain rfl := (Option.some.inj hT).symm
  refine ⟨rfl, rfl, rfl, rfl, ?_, ?_, ?_⟩
  · intro hge
    dsimp only at hge ⊢
    rw [if_pos hge, if_pos hge, if_pos hge]
    exact ⟨rfl, rfl, rfl⟩
  · intro hge hpos
    dsimp only at hge ⊢
    rw [if_neg hge, if_neg hge, if_neg hge, if_pos hpos]
    exact ⟨rfl, rfl, rfl⟩
  · intro hge hpos
    dsimp only at hge ⊢
    rw [if_neg hge, if_neg hge, if_neg hge, if_neg hpos]
    exact ⟨rfl, rfl, rfl⟩

/-- C8 (amended) witness: the fully paid two-hour sample booking at
100/hour gets `durationHours` 2, `totalPrice` 200 and the PAID/CONFIRMED
statuses. -/
theorem createBooking_pricing_witness :
    (findk c10s1.bookings 101).map
      (fun b => (b.durationHours, b.totalPrice, b.paymentStatus, b.bookingStatus))
      = some (2, 200, .PAID, .CONFIRMED) := by
  have hok : createBooking exDB bkInput1 = .ok (c10s1, 101, 100) := by
    with_unfolding_all rfl
  have hBs : (findk c10s1.bookings 101).isSome = true := by
    with_unfolding_all rfl
  have hTs : (findk c10s1.transactions 100).isSome = true := by
    with_unfolding_all rfl
  rcases hB : findk c10s1.bookings 101 with _ | bk
  · rw [hB] at hBs
    exact absurd hBs (by simp)
  · rcases hT : findk c10s1.transactions 100 with _ | txn
    · rw [hT] at hTs
      exact absurd hTs (by simp)
    · obtain ⟨hdur, htot, _, _, hpaid, _, _⟩ :=
        createBooking_pricing exDB bkInput1 c10s1 101 100 exCourt bk txn hok
          (by with_unfolding_all rfl) (by with_unfolding_all rfl)
          (by with_unfolding_all rfl) hB hT
      obtain ⟨hps, hbs, _⟩ := hpaid (by
        rw [htot, hdur]
        with_unfolding_all decide)
      simp only [Option.map_some', Option.some.injEq, Prod.mk.injEq]
      refine ⟨?_, ?_, hps, hbs⟩
      · rw [hdur]
        with_unfolding_all decide
      · rw [htot, hdur]
        with_unfolding_all decide

/-- C10: `completeBooking` sets bookingStatus to COMPLETED without
inspecting the current status — including on a CANCELLED booking — and the
concrete sequence create, cancel, create-overlapping, complete-the-
cancelled yields two non-cancelled bookings on one court with overlapping
half-open intervals, breaking the no-overlap invariant. -/
theorem completeBooking_unconditional :
    (∀ (s : DB) (id : Nat) (b : Booking), findk s.bookings id = some b →
      ∃ s', completeBooking s id = .ok s' ∧
        findk s'.bookings id = some { b with bookingStatus := .COMPLETED }) ∧
    (createBooking exDB bkInput1 = .ok (c10s1, 101, 100) ∧
     cancelBooking c10s1 101 = .ok c10s2 ∧
     createBooking c10s2 bkInput2 = .ok (c10s3, 103, 102) ∧
     completeBooking c10s3 101 = .ok c10s4 ∧
     (findk c10s4.bookings 101).map
       (fun b => (b.courtId, b.bookingStatus, b.startTime, b.endTime))
       = some (9, .COMPLETED, 0, 7200000) ∧
     (findk c10s4.bookings 103).map
       (fun b => (b.courtId, b.bookingStatus, b.startTime, b.endTime))
       = some (9, .PENDING, 3600000, 10800000) ∧
     ¬ NoOverlap c10s4.bookings) := by
  constructor
  · intro s id b hb
    refine ⟨{ s with
                bookings := updk s.bookings id
                  (fun x => { x with bookingStatus := .COMPLETED }) },
      ?_, ?_⟩
    · simp only [completeBooking, hb]
    · dsimp only
      rw [findk_updk_self, hb]
      rfl
  · refine ⟨by with_unfolding_all rfl, by with_unfolding_all rfl,
      by with_unfolding_all rfl, by with_unfolding_all rfl,
      by with_unfolding_all rfl, by with_unfolding_all rfl, ?_⟩
    intro hno
    have hbl : c10s4.bookings =
        [(101, { courtId := 9, startTime := 0, endTime := 7200000,
                 durationHours := 2, pricePerHour := 100, totalPrice := 200,
                 paymentStatus := .PAID, bookingStatus := .COMPLETED,
                 transactionId := some 100 }),
         (103, { courtId := 9, startTime := 3600000, endTime := 10800000,
                 durationHours := 2, pricePerHour := 100, totalPrice := 200,
                 paymentStatus := .UNPAID, bookingStatus := .PENDING,
                 transactionId := some 102 })] := by
      with_unfolding_all rfl
    rw [NoOverlap, hbl] at hno
    have hrel := (List.pairwise_cons.mp hno).1 _ (List.mem_singleton_self _)
    exact hrel rfl (by decide) (by decide) ⟨by decide, by decide⟩

/-- C10 witness: completing the booking cancelled in the sample sequence
marks it COMPLETED even though it was CANCELLED. -/
theorem completeBooking_unconditional_witness :
    (findk (afterCompleteBk c10s3 101).bookings 101).map
      (fun b => b.bookingStatus) = some .COMPLETED := by
  obtain ⟨s', h1, h2⟩ := completeBooking_unconditional.1 c10s3 101
    { courtId := 9, startTime := 0, endTime := 7200000, durationHours := 2,
      pricePerHour := 100, totalPrice := 200, paymentStatus := .PAID,
      bookingStatus := .CANCELLED, transactionId := some 100 }
    (by with_unfolding_all rfl)
  rw [show afterCompleteBk c10s3 101 = s' from by
    rw [afterCompleteBk, h1]]
  rw [h2]
  rfl

theorem mem_legalPairs_iff (a b : OrderStatus) :
    (a, b) ∈ legalPairs ↔ (allowedNext a).contains b = true := by
  cases a <;> cases b <;> decide

/-- C6: `updateOrderRequestStatus` succeeds only for transitions in the
table PENDING → {APPROVED, REJECTED, CANCELLED}, APPROVED → {PREPARING,
CANCELLED}, PREPARING → {SERVED, CANCELLED} (SERVED, REJECTED and
CANCELLED are terminal); any other requested transition is rejected with a
domain error naming the current and attempted states and leaves the store
— in particular the order's status — unchanged. -/
theorem updateOrderRequestStatus_transitions :
    (∀ (s : DB) (id : Nat) (status : OrderStatus) (reason : Option String)
        (uid : Nat) (s' : DB) (r : Option Nat),
      updateOrderRequestStatus s id status reason uid = .ok (s', r) →
      ∃ o, findk s.orderRequests id = some o ∧ (o.status, status) ∈ legalPairs) ∧
    (∀ (s : DB) (id : Nat) (status : OrderStatus) (reason : Option String)
        (uid : Nat) (o : OrderRequest),
      findk s.orderRequests id = some o →
      (o.status, status) ∉ legalPairs →
      updateOrderRequestStatus s id status reason uid
        = .error (.invalidTransition o.status status) ∧
      afterUpdateStatus s id status reason uid = s) := by
  constructor
  · intro s id status reason uid s' r h
    simp only [updateOrderRequestStatus] at h
    cases ho : findk s.orderRequests id with
    | none =>
      rw [ho] at h
      exact absurd h (by simp)
    | some o =>
      rw [ho] at h
      dsimp only at h
      by_cases hall : (allowedNext o.status).contains status = false
      · rw [if_pos hall] at h
        exact absurd h (by simp)
      · refine ⟨o, rfl, (mem_legalPairs_iff o.status status).mpr ?_⟩
        revert hall
        cases (allowedNext o.status).contains status <;> simp
  · intro s id status reason uid o ho hmem
    have hcontains : (allowedNext o.status).contains status = false := by
      revert hmem
      rw [mem_legalPairs_iff o.status status]
      cases (allowedNext o.status).contains status <;> simp
    have herr : updateOrderRequestStatus s id status reason uid
        = .error (.invalidTransition o.status status) := by
      simp only [updateOrderRequestStatus, ho]
      rw [if_pos hcontains]
    exact ⟨herr, by rw [afterUpdateStatus, herr]⟩

/-- C6 witness: cancelling the PREPARING sample order succeeds (a legal
transition), while SERVED → PENDING on the served sample order is rejected
with the error naming both states and leaves the store unchanged. -/
theorem updateOrderRequestStatus_transitions_witness :
    (findk exDB.orderRequests 7).isSome = true ∧
    updateOrderRequestStatus exDB 8 .PENDING none 1
      = .error (.invalidTransition .SERVED .PENDING) ∧
    afterUpdateStatus exDB 8 .PENDING none 1 = exDB := by
  refine ⟨?_, ?_, ?_⟩
  · have hok : updateOrderRequestStatus exDB 7 .CANCELLED none 1
        = .ok (afterUpdateStatus exDB 7 .CANCELLED none 1, none) := by
      with_unfolding_all rfl
    obtain ⟨o, ho, _⟩ := updateOrderRequestStatus_transitions.1
      exDB 7 .CANCELLED none 1 (afterUpdateStatus exDB 7 .CANCELLED none 1)
      none hok
    rw [ho]
    rfl
  · exact (updateOrderRequestStatus_transitions.2 exDB 8 .PENDING none 1
      exOrderServed (by with_unfolding_all rfl) (by decide)).1
  · exact (updateOrderRequestStatus_transitions.2 exDB 8 .PENDING none 1
      exOrderServed (by with_unfolding_all rfl) (by decide)).2

theorem menuQtyO_eq_zero {k : Nat} {items : List OrderItem}
    (h : ∀ it ∈ items, it.menuId ≠ k) : menuQtyO k items = 0 := by
  induction items with
  | nil => rfl
  | cons it rest ih =>
    rw [show menuQtyO k (it :: rest)
        = (if it.menuId = k then (it.quantity : Int) else 0)
          + menuQtyO k rest from rfl]
    rw [if_neg (h it (List.mem_cons_self it rest)),
      ih (fun it' hit' => h it' (List.mem_cons_of_mem it hit'))]
    ring

/-- With pairwise-distinct menu ids, an order item's own menu is charged
exactly its quantity. -/
theorem menuQtyO_of_nodup {items : List OrderItem} {it : OrderItem}
    (hnd : (items.map (fun x => x.menuId)).Nodup) (hi : it ∈ items) :
    menuQtyO it.menuId items = (it.quantity : Int) := by
  induction items with
  | nil => exact absurd hi (by simp)
  | cons j rest ih =>
    rw [List.map_cons, List.nodup_cons] at hnd
    obtain ⟨hhead, htail⟩ := hnd
    rcases List.mem_cons.mp hi with rfl | hir
    · rw [show menuQtyO it.menuId (it :: rest)
          = (if it.menuId = it.menuId then (it.quantity : Int) else 0)
            + menuQtyO it.menuId rest from rfl]
      rw [if_pos rfl, menuQtyO_eq_zero (fun j' hj' hc => hhead (by
        rw [← hc]
        exact List.mem_map_of_mem (fun x => x.menuId) hj'))]
      ring
    · rw [show menuQtyO it.menuId (j :: rest)
          = (if j.menuId = it.menuId then (j.quantity : Int) else 0)
            + menuQtyO it.menuId rest from rfl]
      rw [if_neg (fun hc => hhead (by
        rw [hc]
        exact List.mem_map_of_mem (fun x => x.menuId) hir)), ih htail hir]
      ring

/-- Effect of one SERVED-loop iteration on the menus table. -/
theorem serveStep_menus (ms : List (Nat × Menu)) (it : OrderItem)
    {ms₁ : List (Nat × Menu)}
    (h : (match findk ms it.menuId with
       | some menu =>
         match menu.stock with
         | some n =>
           if n < (it.quantity : Int) then
             Except.error (DomainError.insufficientStock menu.name n)
           else
             Except.ok (updk ms it.menuId (fun m =>
               { m with stock := some (n - (it.quantity : Int)) }))
         | none => Except.ok ms
       | none => Except.ok ms) = Except.ok ms₁) (k : Nat) :
    findk ms₁ k = (findk ms k).map (menuShift
      (-(if it.menuId = k then (it.quantity : Int) else 0))) := by
  cases hm : findk ms it.menuId with
  | none =>
    rw [hm] at h
    simp only [Except.ok.injEq] at h
    subst h
    by_cases hk : it.menuId = k
    · subst hk
      rw [hm]
      rfl
    · cases ho : findk ms k <;> simp [hk, menuShift_zero]
  | some menu =>
    rw [hm] at h
    dsimp only at h
    cases hs : menu.stock with
    | none =>
      rw [hs] at h
      simp only [Except.ok.injEq] at h
      subst h
      by_cases hk : it.menuId = k
      · subst hk
        rw [hm]
        cases menu with
        | mk name price stock isActive =>
          simp only at hs
          subst hs
          simp [menuShift]
      · cases ho : findk ms k <;> simp [hk, menuShift_zero]
    | some n =>
      rw [hs] at h
      dsimp only at h
      by_cases hlt : n < (it.quantity : Int)
      · rw [if_pos hlt] at h
        exact absurd h (by simp)
      · rw [if_neg hlt] at h
        simp only [Except.ok.injEq] at h
        subst h
        by_cases hk : it.menuId = k
        · subst hk
          rw [findk_updk_self, hm]
          cases menu with
          | mk name price stock isActive =>
            simp only at hs
            subst hs
            simp [menuShift, sub_eq_add_neg]
        · rw [findk_updk_ne _ _ _ _ (fun hc => hk hc.symm)]
          cases ho : findk ms k <;> simp [hk, menuShift_zero]

/-- Net effect of the SERVED loop on the menus table: every tracked menu
is decremented by exactly the order's quantity against it. -/
theorem serveItems_menus {items : List OrderItem} :
    ∀ {ms ms' : List (Nat × Menu)} {titems : List TransactionItem},
    serveItems ms items = .ok (ms', titems) → ∀ k,
    findk ms' k = (findk ms k).map (menuShift (-(menuQtyO k items))) := by
  induction items with
  | nil =>
    intro ms ms' t h k
    simp only [serveItems, Except.ok.injEq, Prod.mk.injEq] at h
    obtain ⟨h1, _⟩ := h
    subst h1
    cases ho : findk ms k with
    | none => rfl
    | some m => simp [menuQtyO, menuShift_zero]
  | cons it rest ih =>
    intro ms ms' t h k
    simp only [serveItems] at h
    cases hstep : (match findk ms it.menuId with
       | some menu =>
         match menu.stock with
         | some n =>
           if n < (it.quantity : Int) then
             Except.error (DomainError.insufficientStock menu.name n)
           else
             Except.ok (updk ms it.menuId (fun m =>
               { m with stock := some (n - (it.quantity : Int)) }))
         | none => Except.ok ms
       | none => Except.ok ms) with
    | error e =>
      rw [hstep] at h
      exact absurd h (by simp)
    | ok ms₁ =>
      rw [hstep] at h
      dsimp only at h
      cases hrec : serveItems ms₁ rest with
      | error e =>
        rw [hrec] at h
        exact absurd h (by simp)
      | ok pr =>
        obtain ⟨ms₂, ts⟩ := pr
        rw [hrec] at h
        simp only [Except.ok.injEq, Prod.mk.injEq] at h
        obtain ⟨h1, _⟩ := h
        subst h1
        rw [ih hrec k, serveStep_menus ms it hstep k]
        rw [show menuQtyO k (it :: rest)
            = (if it.menuId = k then (it.quantity : Int) else 0)
              + menuQtyO k rest from rfl]
        cases ho : findk ms k with
        | none => rfl
        | some m =>
          simp only [Option.map_some', menuShift_comp]
          congr 1
          ring

/-- The SERVED loop emits one MENU transaction item per order item, in
order, carrying the client-supplied prices. -/
theorem serveItems_titems {items : List OrderItem} :
    ∀ {ms ms' : List (Nat × Menu)} {titems : List TransactionItem},
    serveItems ms items = .ok (ms', titems) →
    titems = items.map mkTItem := by
  induction items with
  | nil =>
    intro ms ms' t h
    simp only [serveItems, Except.ok.injEq, Prod.mk.injEq] at h
    exact h.2.symm
  | cons it rest ih =>
    intro ms ms' t h
    simp only [serveItems] at h
    cases hstep : (match findk ms it.menuId with
       | some menu =>
         match menu.stock with
         | some n =>
           if n < (it.quantity : Int) then
             Except.error (DomainError.insufficientStock menu.name n)
           else
             Except.ok (updk ms it.menuId (fun m =>
               { m with stock := some (n - (it.quantity : Int)) }))
         | none => Except.ok ms
       | none => Except.ok ms) with
    | error e =>
      rw [hstep] at h
      exact absurd h (by simp)
    | ok ms₁ =>
      rw [hstep] at h
      dsimp only at h
      cases hrec : serveItems ms₁ rest with
      | error e =>
        rw [hrec] at h
        exact absurd h (by simp)
      | ok pr =>
        obtain ⟨ms₂, ts⟩ := pr
        rw [hrec] at h
        simp only [Except.ok.injEq, Prod.mk.injEq] at h
        obtain ⟨_, h2⟩ := h
        rw [← h2, List.map_cons, ih hrec]
        rfl

/-- One SERVED-loop iteration touches no menu key other than its own. -/
theorem serveStep_menus_other (ms : List (Nat × Menu)) (it : OrderItem)
    {ms₁ : List (Nat × Menu)}
    (h : (match findk ms it.menuId with
       | some menu =>
         match menu.stock with
         | some n =>
           if n < (it.quantity : Int) then
             Except.error (DomainError.insufficientStock menu.name n)
           else
             Except.ok (updk ms it.menuId (fun m =>
               { m with stock := some (n - (it.quantity : Int)) }))
         | none => Except.ok ms
       | none => Except.ok ms) = Except.ok ms₁) {k : Nat}
    (hk : it.menuId ≠ k) : findk ms₁ k = findk ms k := by
  rw [serveStep_menus ms it h k]
  cases ho : findk ms k <;> simp [hk, menuShift_zero]

/-- After a successful SERVED loop with distinct menu ids, every tracked
order item had enough stock at loop entry. -/
theorem serveItems_itemOk {items : List OrderItem} :
    ∀ {ms ms' : List (Nat × Menu)} {titems : List TransactionItem},
    serveItems ms items = .ok (ms', titems) →
    (items.map (fun x => x.menuId)).Nodup →
    ∀ it ∈ items, ∀ m n, findk ms it.menuId = some m → m.stock = some n →
      (it.quantity : Int) ≤ n := by
  induction items with
  | nil =>
    intro ms ms' t _ _ it hit
    exact absurd hit (by simp)
  | cons j rest ih =>
    intro ms ms' t h hnd it hit m n hm hn
    rw [List.map_cons, List.nodup_cons] at hnd
    obtain ⟨hhead, htail⟩ := hnd
    simp only [serveItems] at h
    cases hstep : (match findk ms j.menuId with
       | some menu =>
         match menu.stock with
         | some n =>
           if n < (j.quantity : Int) then
             Except.error (DomainError.insufficientStock menu.name n)
           else
             Except.ok (updk ms j.menuId (fun m =>
               { m with stock := some (n - (j.quantity : Int)) }))
         | none => Except.ok ms
       | none => Except.ok ms) with
    | error e =>
      rw [hstep] at h
      exact absurd h (by simp)
    | ok ms₁ =>
      rw [hstep] at h
      dsimp only at h
      cases hrec : serveItems ms₁ rest with
      | error e =>
        rw [hrec] at h
        exact absurd h (by simp)
      | ok pr =>
        rcases List.mem_cons.mp hit with rfl | hir
        · rw [hm] at hstep
          dsimp only at hstep
          rw [hn] at hstep
          dsimp only at hstep
          by_cases hlt : n < (it.quantity : Int)
          · rw [if_pos hlt] at hstep
            exact absurd hstep (by simp)
          · exact Int.not_lt.mp hlt
        · have hne : j.menuId ≠ it.menuId := fun hc => hhead (by
            rw [hc]
            exact List.mem_map_of_mem (fun x => x.menuId) hir)
          refine ih hrec htail it hir m n ?_ hn
          rw [serveStep_menus_other ms j hstep hne]
          exact hm

/-- If some order item references a tracked menu with insufficient stock
(and the order's menu ids are distinct), the SERVED loop fails with an
insufficient-stock error naming the menu and its available stock. -/
theorem serveItems_under_fails {items : List OrderItem} :
    ∀ {ms : List (Nat × Menu)},
    (items.map (fun x => x.menuId)).Nodup →
    (∃ it ∈ items, ∃ m n, findk ms it.menuId = some m ∧ m.stock = some n ∧
      n < (it.quantity : Int)) →
    ∃ name avail, serveItems ms items = .error (.insufficientStock name avail) := by
  induction items with
  | nil =>
    intro ms _ hex
    obtain ⟨it, hit, _⟩ := hex
    exact absurd hit (by simp)
  | cons j rest ih =>
    intro ms hnd hex
    rw [List.map_cons, List.nodup_cons] at hnd
    obtain ⟨hhead, htail⟩ := hnd
    by_cases hu : ∃ m n, findk ms j.menuId = some m ∧ m.stock = some n ∧
        n < (j.quantity : Int)
    · obtain ⟨m, n, hm, hn, hlt⟩ := hu
      refine ⟨m.name, n, ?_⟩
      simp only [serveItems, hm]
      rw [hn]
      dsimp only
      rw [if_pos hlt]
    · have hstep : (match findk ms j.menuId with
         | some menu =>
           match menu.stock with
           | some n =>
             if n < (j.quantity : Int) then
               Except.error (DomainError.insufficientStock menu.name n)
             else
               Except.ok (updk ms j.menuId (fun m =>
                 { m with stock := some (n - (j.quantity : Int)) }))
           | none => Except.ok ms
         | none => Except.ok ms)
          = Except.ok (match findk ms j.menuId with
            | some menu =>
              match menu.stock with
              | some n => updk ms j.menuId (fun m =>
                  { m with stock := some (n - (j.quantity : Int)) })
              | none => ms
            | none => ms) := by
        cases hm : findk ms j.menuId with
        | none => rfl
        | some menu =>
          dsimp only
          cases hs : menu.stock with
          | none => rfl
          | some n =>
            dsimp only
            rw [if_neg (fun hlt => hu ⟨menu, n, hm, hs, hlt⟩)]
      obtain ⟨it, hit, m, n, hm, hn, hlt⟩ := hex
      have hir : it ∈ rest := by
        rcases List.mem_cons.mp hit with rfl | hir
        · exact absurd ⟨m, n, hm, hn, hlt⟩ hu
        · exact hir
      have hne : j.menuId ≠ it.menuId := fun hc => hhead (by
        rw [hc]
        exact List.mem_map_of_mem (fun x => x.menuId) hir)
      obtain ⟨name, avail, herr⟩ := @ih (match findk ms j.menuId with
            | some menu =>
              match menu.stock with
              | some n => updk ms j.menuId (fun m =>
                  { m with stock := some (n - (j.quantity : Int)) })
              | none => ms
            | none => ms) htail ⟨it, hir, m, n, by
          rw [serveStep_menus_other ms j hstep hne]
          exact hm, hn, hlt⟩
      refine ⟨name, avail, ?_⟩
      simp only [serveItems, hstep]
      rw [herr]

/-- C7: transitioning a PREPARING order request to SERVED atomically (a)
verifies, for every order item whose referenced menu tracks stock, that
`stock >= quantity` — failing the whole transition with an
insufficient-stock error (leaving the store unchanged) when some tracked
menu falls short — and decrements each tracked menu's stock by the order's
quantity against it; (b) allocates the next invoice number; (c) appends a
POS-type Transaction with status PENDING and paidAmount 0 carrying one
MENU TransactionItem per order item; and (d) links the OrderRequest
(now SERVED) to that new transaction. -/
theorem updateOrderRequestStatus_served :
    ∀ (s : DB) (id : Nat) (reason : Option String) (uid : Nat)
      (o : OrderRequest),
    findk s.orderRequests id = some o →
    o.status = .PREPARING →
    (o.items.map (fun x => x.menuId)).Nodup →
    ((∀ s' r, updateOrderRequestStatus s id .SERVED reason uid = .ok (s', r) →
        r = some s.nextId ∧
        s'.transactions = s.transactions ++
          [(s.nextId,
            { invoiceNumber := s.transactions.length + 1
              type := .POS
              tableId := o.tableId
              customerName := some o.customerName
              totalAmount := o.totalAmount
              paidAmount := 0
              changeAmount := 0
              status := .PENDING
              items := o.items.map mkTItem
              sellRecords := []
              rentRecords := [] })] ∧
        findk s'.orderRequests id
          = some { o with status := .SERVED, transactionId := some s.nextId } ∧
        (∀ k, findk s'.menus k
          = (findk s.menus k).map (menuShift (-(menuQtyO k o.items)))) ∧
        (∀ it ∈ o.items, ∀ m n, findk s.menus it.menuId = some m →
          m.stock = some n → (it.quantity : Int) ≤ n)) ∧
     ((∃ it ∈ o.items, ∃ m n, findk s.menus it.menuId = some m ∧
         m.stock = some n ∧ n < (it.quantity : Int)) →
       (∃ name avail, updateOrderRequestStatus s id .SERVED reason uid
          = .error (.insufficientStock name avail)) ∧
       afterUpdateStatus s id .SERVED reason uid = s)) := by
  intro s id reason uid o ho hst hnd
  have hng : ¬ ((allowedNext o.status).contains OrderStatus.SERVED = false) := by
    rw [hst]
    decide
  constructor
  · intro s' r h
    simp only [updateOrderRequestStatus, ho] at h
    rw [if_neg hng] at h
    rw [if_pos trivial] at h
    cases hsv : serveItems s.menus o.items with
    | error e =>
      rw [hsv] at h
      exact absurd h (by simp)
    | ok pr =>
      obtain ⟨menus', titems⟩ := pr
      rw [hsv] at h
      dsimp only at h
      simp only [Except.ok.injEq, Prod.mk.injEq] at h
      obtain ⟨h1, h2⟩ := h
      subst h1
      subst h2
      have htit : titems = o.items.map mkTItem := serveItems_titems hsv
      subst htit
      refine ⟨rfl, rfl, ?_, ?_, ?_⟩
      · show findk (updk s.orderRequests id _) id = _
        rw [findk_updk_self, ho]
        rfl
      · intro k
        exact serveItems_menus hsv k
      · exact serveItems_itemOk hsv hnd
  · intro hex
    obtain ⟨name, avail, herr⟩ := serveItems_under_fails hnd hex
    have herr2 : updateOrderRequestStatus s id .SERVED reason uid
        = .error (.insufficientStock name avail) := by
      simp only [updateOrderRequestStatus, ho]
      rw [if_neg hng]
      rw [if_pos trivial]
      rw [herr]
    exact ⟨⟨name, avail, herr2⟩, by rw [afterUpdateStatus, herr2]⟩

/-- C7 witness: serving the sample PREPARING order (two teas against a
tracked stock of 4) succeeds, decrements menu 5's stock by the order's
quantity, and links the order to the freshly created transaction. -/
theorem updateOrderRequestStatus_served_witness :
    findk exDB.orderRequests 7 = some exOrder ∧
    exOrder.status = .PREPARING ∧
    findk (afterUpdateStatus exDB 7 .SERVED none 1).menus 5
      = (findk exDB.menus 5).map (menuShift (-(menuQtyO 5 exOrder.items))) ∧
    findk (afterUpdateStatus exDB 7 .SERVED none 1).orderRequests 7
      = some { exOrder with status := .SERVED, transactionId := some exDB.nextId } := by
  have ho : findk exDB.orderRequests 7 = some exOrder := by
    with_unfolding_all rfl
  have hok : updateOrderRequestStatus exDB 7 .SERVED none 1
      = .ok (afterUpdateStatus exDB 7 .SERVED none 1, some exDB.nextId) := by
    with_unfolding_all rfl
  have hmain := (updateOrderRequestStatus_served exDB 7 none 1 exOrder ho rfl
      (by decide)).1 (afterUpdateStatus exDB 7 .SERVED none 1)
      (some exDB.nextId) hok
  exact ⟨ho, rfl, hmain.2.2.2.1 5, hmain.2.2.1⟩

/-- C9: for every `adjustStock` call with positive amount on an existing
inventory row: on success the appended ledger row records
quantityBefore = the old quantity and quantityAfter = quantityBefore +
changeAmount, the inventory's quantity becomes quantityAfter, and
quantityAfter is old + amount for ADD, old - amount for REMOVE, and
amount itself for CORRECTION; ADD and CORRECTION always succeed, REMOVE
succeeds exactly when old - amount is not negative and otherwise is
rejected with the Conflict error leaving the store — in particular the
inventory's quantity — unchanged. -/
theorem adjustStock_spec :
    ∀ (s : DB) (id : Nat) (ct : AdjType) (amount : Int) (reason : String)
      (uid : Nat) (inv : Inventory),
    findk s.inventories id = some inv →
    0 < amount →
    ((∀ s', adjustStock s id ct amount reason uid = .ok s' →
        ∃ qa,
          s'.adjustments = s.adjustments ++
            [{ inventoryId := id, changeType := ct,
               quantityBefore := inv.quantity, quantityAfter := qa,
               changeAmount := qa - inv.quantity, reason := reason,
               createdBy := uid }] ∧
          qa = inv.quantity + (qa - inv.quantity) ∧
          findk s'.inventories id = some { inv with quantity := qa } ∧
          (ct = .ADD → qa = inv.quantity + amount) ∧
          (ct = .REMOVE → qa = inv.quantity - amount) ∧
          (ct = .CORRECTION → qa = amount)) ∧
     (ct = .ADD → ∃ s', adjustStock s id ct amount reason uid = .ok s') ∧
     (ct = .CORRECTION → ∃ s', adjustStock s id ct amount reason uid = .ok s') ∧
     (ct = .REMOVE → ¬ inv.quantity - amount < 0 →
        ∃ s', adjustStock s id ct amount reason uid = .ok s') ∧
     (ct = .REMOVE → inv.quantity - amount < 0 →
        adjustStock s id ct amount reason uid = .error .removeExceedsStock ∧
        afterAdjustStock s id ct amount reason uid = s)) := by
  intro s id ct amount reason uid inv hinv hpos
  refine ⟨?_, ?_, ?_, ?_, ?_⟩
  · intro s' h
    simp only [adjustStock, hinv] at h
    cases ct with
    | ADD =>
      dsimp only at h
      simp only [Except.ok.injEq] at h
      subst h
      refine ⟨inv.quantity + amount, rfl, by ring, ?_, ?_, ?_, ?_⟩
      · show findk (updk s.inventories id _) id = _
        rw [findk_updk_self, hinv]
        rfl
      · exact fun _ => rfl
      · intro hc
        exact absurd hc (by decide)
      · intro hc
        exact absurd hc (by decide)
    | REMOVE =>
      dsimp only at h
      by_cases hlt : inv.quantity - amount < 0
      · rw [if_pos hlt] at h
        exact absurd h (by simp)
      · rw [if_neg hlt] at h
        dsimp only at h
        simp only [Except.ok.injEq] at h
        subst h
        refine ⟨inv.quantity - amount, rfl, by ring, ?_, ?_, ?_, ?_⟩
        · show findk (updk s.inventories id _) id = _
          rw [findk_updk_self, hinv]
          rfl
        · intro hc
          exact absurd hc (by decide)
        · exact fun _ => rfl
        · intro hc
          exact absurd hc (by decide)
    | CORRECTION =>
      dsimp only at h
      rw [if_neg (not_lt.mpr hpos.le)] at h
      dsimp only at h
      simp only [Except.ok.injEq] at h
      subst h
      refine ⟨amount, rfl, by ring, ?_, ?_, ?_, ?_⟩
      · show findk (updk s.inventories id _) id = _
        rw [findk_updk_self, hinv]
        rfl
      · intro hc
        exact absurd hc (by decide)
      · intro hc
        exact absurd hc (by decide)
      · exact fun _ => rfl
  · intro hct
    subst hct
    cases hres : adjustStock s id .ADD amount reason uid with
    | ok s' => exact ⟨s', rfl⟩
    | error e =>
      simp only [adjustStock, hinv] at hres
      exact absurd hres (by simp)
  · intro hct
    subst hct
    cases hres : adjustStock s id .CORRECTION amount reason uid with
    | ok s' => exact ⟨s', rfl⟩
    | error e =>
      simp only [adjustStock, hinv] at hres
      rw [if_neg (not_lt.mpr hpos.le)] at hres
      exact absurd hres (by simp)
  · intro hct hge
    subst hct
    cases hres : adjustStock s id .REMOVE amount reason uid with
    | ok s' => exact ⟨s', rfl⟩
    | error e =>
      simp only [adjustStock, hinv] at hres
      rw [if_neg hge] at hres
      exact absurd hres (by simp)
  · intro hct hlt
    subst hct
    have herr : adjustStock s id .REMOVE amount reason uid
        = .error .removeExceedsStock := by
      simp only [adjustStock, hinv]
      rw [if_pos hlt]
    exact ⟨herr, by rw [afterAdjustStock, herr]⟩

/-- C9 witness: ADD 5 on the sample inventory (quantity 10) succeeds and
sets the quantity to 15, while REMOVE 20 is rejected with the Conflict
error and leaves the store unchanged. -/
theorem adjustStock_spec_witness :
    findk exDB.inventories 3 = some exInv ∧ (0:Int) < 5 ∧
    findk (afterAdjustStock exDB 3 .ADD 5 "restock" 1).inventories 3
      = some { exInv with quantity := 15 } ∧
    adjustStock exDB 3 .REMOVE 20 "shrink" 1 = .error .removeExceedsStock ∧
    afterAdjustStock exDB 3 .REMOVE 20 "shrink" 1 = exDB := by
  have hinv : findk exDB.inventories 3 = some exInv := by
    with_unfolding_all rfl
  have hok : adjustStock exDB 3 .ADD 5 "restock" 1
      = .ok (afterAdjustStock exDB 3 .ADD 5 "restock" 1) := by
    with_unfolding_all rfl
  obtain ⟨qa, _, _, hfind, hadd, _, _⟩ :=
    (adjustStock_spec exDB 3 .ADD 5 "restock" 1 exInv hinv (by decide)).1
      (afterAdjustStock exDB 3 .ADD 5 "restock" 1) hok
  have hrem := (adjustStock_spec exDB 3 .REMOVE 20 "shrink" 1 exInv hinv
      (by decide)).2.2.2.2 rfl (by decide)
  refine ⟨hinv, by decide, ?_, hrem.1, hrem.2⟩
  rw [hfind, hadd rfl]
  with_unfolding_all rfl

end BBP
